import Mathlib

/-!
Verification development for the cc-switch configuration store and
synchronization engine (Rust sources under `ccswitch-core`).

The Rust code is shallowly embedded:
* SQLite tables become Lean lists of row structures; each DAO method of
  `database/mod.rs` and `database/prompt.rs` becomes a pure function on that
  list, mirroring the SQL statement it executes (including `INSERT OR
  REPLACE` semantics, where unspecified columns fall back to their schema
  defaults).
* The process-wide settings overlay of `settings.rs` becomes an explicit
  `AppSettings` value carried in the system state.
* Live config files are a finite map from an abstract file identity to file
  content; every write performed by a live-sync routine is additionally
  recorded in a ghost write log so that "exactly one write happened" is
  expressible.
* Fallible Rust functions returning `Result<T, AppError>` become functions
  returning `Except AppError T` paired with the (possibly unchanged) state,
  matching Rust's in-place mutation with early return on error.
-/

namespace CcSwitch

/-- JSON values as used by `serde_json::Value` (objects keep insertion order
and have unique keys; numbers are abstracted to integers, which is all the
embedded code ever stores). -/
inductive JsonVal where
  | null
  | bool (b : Bool)
  | num (n : Int)
  | str (s : String)
  | arr (elems : List JsonVal)
  | obj (fields : List (String × JsonVal))
  deriving Repr

/-- `serde_json::Value::get(key)`: field lookup on an object, `None` on any
other variant. -/
def JsonVal.get : JsonVal → String → Option JsonVal
  | .obj fields, key => (fields.find? (fun kv => kv.1 == key)).map (·.2)
  | _, _ => none

/-- `serde_json::Value::as_str()`. -/
def JsonVal.asStr : JsonVal → Option String
  | .str s => some s
  | _ => none

/-- `AppType` from `app_config.rs`: the four supported CLI applications. -/
inductive AppType where
  | claude
  | codex
  | gemini
  | opencode
  deriving DecidableEq, Repr, Fintype

/-- `AppType::as_str` from `app_config.rs`. -/
def AppType.asStr : AppType → String
  | .claude => "claude"
  | .codex => "codex"
  | .gemini => "gemini"
  | .opencode => "opencode"

/-- `AppType::is_additive_mode` from `app_config.rs`: only OpenCode is
additive. -/
def AppType.isAdditiveMode : AppType → Bool
  | .opencode => true
  | _ => false

/-- `AppError` from `error.rs`. The `std::io::Error` / serde error payloads
are abstracted away; the string context kept by each variant is retained. -/
inductive AppError where
  | Config (msg : String)
  | InvalidInput (msg : String)
  | Io (path : String)
  | IoContext (context : String)
  | Json (path : String)
  | JsonSerialize
  | Toml (path : String)
  | Lock (msg : String)
  | McpValidation (msg : String)
  | Message (msg : String)
  | Localized (key zh en : String)
  | Database (msg : String)
  | AllProvidersCircuitOpen
  | NoProvidersConfigured
  | ProviderNotFound (id : String)
  | Http (msg : String)
  deriving DecidableEq, Repr

/-- `Provider` from `provider.rs`. `meta` (`Option<ProviderMeta>`) is carried
as an opaque JSON document: the store serializes it to JSON text and no
operation verified here inspects it. -/
structure Provider where
  id : String
  name : String
  settingsConfig : JsonVal
  websiteUrl : Option String := none
  category : Option String := none
  createdAt : Option Int := none
  sortIndex : Option Nat := none
  notes : Option String := none
  meta : Option JsonVal := none
  icon : Option String := none
  iconColor : Option String := none
  inFailoverQueue : Bool := false
  deriving Repr

/-- `Prompt` from `prompt.rs`. -/
structure Prompt where
  id : String
  name : String
  content : String
  description : Option String := none
  enabled : Bool := false
  createdAt : Option Int := none
  updatedAt : Option Int := none
  deriving Repr

/-- One row of the `providers` table (`database/mod.rs` schema): the
`Provider` columns plus the `app_type` discriminator and the `is_current`
flag.  Primary key: `(id, app_type)`. -/
structure ProviderRow where
  app : AppType
  prov : Provider
  isCurrent : Bool
  deriving Repr

/-- One row of the `prompts` table (`database/schema.rs`): the `Prompt`
columns plus the `app_type` discriminator.  Primary key: `(id, app_type)`. -/
structure PromptRow where
  app : AppType
  prompt : Prompt
  deriving Repr

/-- The SQLite database state: the tables the verified operations touch. -/
structure DbState where
  providers : List ProviderRow
  prompts : List PromptRow
  deriving Repr

namespace Database

/-- SQLite `ORDER BY x ASC` comparison on a nullable integer column:
`NULL` sorts first. -/
def optIntLe : Option Int → Option Int → Bool
  | none, _ => true
  | some _, none => false
  | some a, some b => a ≤ b

/-- SQLite `ORDER BY x ASC` comparison on a nullable natural column. -/
def optNatLe : Option Nat → Option Nat → Bool
  | none, _ => true
  | some _, none => false
  | some a, some b => a ≤ b

/-- The `ORDER BY sort_index ASC, created_at ASC` ordering of
`get_all_providers`. -/
def providerRowLe (r1 r2 : ProviderRow) : Bool :=
  if r1.prov.sortIndex = r2.prov.sortIndex then
    optIntLe r1.prov.createdAt r2.prov.createdAt
  else
    optNatLe r1.prov.sortIndex r2.prov.sortIndex

/-- `Database::get_all_providers` (`database/mod.rs`): select the rows of one
application, ordered by `(sort_index, created_at)` (SQLite leaves the order
of ties unspecified; a stable structural sort is one allowed refinement),
and collect them into an insertion-ordered map keyed by `id` (the `IndexMap`
of the Rust code, represented as an association list). -/
def getAllProviders (db : DbState) (app : AppType) : List (String × Provider) :=
  ((db.providers.filter (fun r => decide (r.app = app))).insertionSort
      (fun r1 r2 => providerRowLe r1 r2 = true)).map
    (fun r => (r.prov.id, r.prov))

/-- `Database::save_provider` (`database/mod.rs`): `INSERT OR REPLACE` keyed
on `(id, app_type)`.  `is_current` is not in the column list, so a replaced
row falls back to the schema default `0`. -/
def saveProvider (db : DbState) (app : AppType) (p : Provider) : DbState :=
  { db with
    providers :=
      db.providers.filter (fun r => !(decide (r.prov.id = p.id) && decide (r.app = app)))
        ++ [{ app := app, prov := p, isCurrent := false }] }

/-- `Database::delete_provider` (`database/mod.rs`). -/
def deleteProvider (db : DbState) (app : AppType) (id : String) : DbState :=
  { db with
    providers :=
      db.providers.filter (fun r => !(decide (r.prov.id = id) && decide (r.app = app))) }

/-- `Database::get_current_provider` (`database/mod.rs`): the id of the row
with `is_current = 1` for the application, if any. -/
def getCurrentProvider (db : DbState) (app : AppType) : Option String :=
  (db.providers.find? (fun r => decide (r.app = app) && r.isCurrent)).map (·.prov.id)

/-- First statement of `Database::set_current_provider`: clear every
`is_current` flag of the application. -/
def clearCurrentFlags (db : DbState) (app : AppType) : DbState :=
  { db with
    providers :=
      db.providers.map (fun r =>
        if r.app = app then { r with isCurrent := false } else r) }

/-- Second statement of `Database::set_current_provider`: raise the flag on
the row keyed `(id, app_type)`. -/
def raiseCurrentFlag (db : DbState) (app : AppType) (id : String) : DbState :=
  { db with
    providers :=
      db.providers.map (fun r =>
        if r.prov.id = id ∧ r.app = app then { r with isCurrent := true } else r) }

/-- `Database::set_current_provider` (`database/mod.rs`): the two separate
UPDATE statements, clear-all then set-one. -/
def setCurrentProvider (db : DbState) (app : AppType) (id : String) : DbState :=
  raiseCurrentFlag (clearCurrentFlags db app) app id

end Database

/-- Primary-key uniqueness of the `providers` table: no two rows share
`(id, app_type)`. -/
def providersKeyUnique (rows : List ProviderRow) : Prop :=
  rows.Pairwise (fun r1 r2 => ¬(r1.prov.id = r2.prov.id ∧ r1.app = r2.app))

/-- Number of rows of one application carrying `is_current = 1`. -/
def currentCount (rows : List ProviderRow) (app : AppType) : Nat :=
  (rows.filter (fun r => decide (r.app = app) && r.isCurrent)).length

/-- The store invariant of §8 of the spec: primary-key uniqueness plus, for
every application, at most one current row. -/
def dbInv (db : DbState) : Prop :=
  providersKeyUnique db.providers ∧ ∀ app : AppType, currentCount db.providers app ≤ 1

namespace StoreInv

/-- A filter over a pairwise "conflict-free" list keeps at most one element
when any two kept elements would conflict. -/
theorem filter_length_le_one_of_pairwise {α : Type} {R : α → α → Prop} {p : α → Bool}
    {l : List α} (hl : l.Pairwise R)
    (hp : ∀ a b, p a = true → p b = true → ¬ R a b) :
    (l.filter p).length ≤ 1 := by
  induction l with
  | nil => simp
  | cons x xs ih =>
    rcases List.pairwise_cons.mp hl with ⟨hx, hxs⟩
    by_cases hpx : p x = true
    · have hnil : xs.filter p = [] := by
        refine List.filter_eq_nil.mpr ?_
        intro b hb hpb
        exact hp x b hpx hpb (hx b hb)
      simp [List.filter_cons, hpx, hnil]
    · simpa [List.filter_cons, hpx] using ih hxs

theorem currentCount_append (a b : List ProviderRow) (app : AppType) :
    currentCount (a ++ b) app = currentCount a app + currentCount b app := by
  simp [currentCount, List.filter_append]

theorem currentCount_filter_le (rows : List ProviderRow) (q : ProviderRow → Bool)
    (app : AppType) : currentCount (rows.filter q) app ≤ currentCount rows app :=
  List.Sublist.length_le (List.Sublist.filter _ (List.filter_sublist rows))

theorem keyUnique_filter {rows : List ProviderRow} (q : ProviderRow → Bool)
    (h : providersKeyUnique rows) : providersKeyUnique (rows.filter q) :=
  List.Pairwise.sublist (List.filter_sublist rows) h

/-- `save_provider` preserves primary-key uniqueness: the replaced key is
filtered out before the fresh row is appended. -/
theorem keyUnique_save (rows : List ProviderRow) (app : AppType) (p : Provider)
    (h : providersKeyUnique rows) :
    providersKeyUnique
      (rows.filter (fun r => !(decide (r.prov.id = p.id) && decide (r.app = app)))
        ++ [{ app := app, prov := p, isCurrent := false }]) := by
  rw [providersKeyUnique, List.pairwise_append]
  refine ⟨keyUnique_filter _ h, List.pairwise_singleton _ _, ?_⟩
  intro r hr y hy
  rcases List.mem_filter.mp hr with ⟨-, hcond⟩
  rcases List.mem_singleton.mp hy with rfl
  intro hkey
  simp only [Bool.not_eq_true', Bool.and_eq_false_imp, decide_eq_true_eq,
    decide_eq_false_iff_not] at hcond
  exact absurd hkey.2 (hcond hkey.1)

/-- `save_provider` cannot create a second current row: the fresh row is not
current and filtering only removes rows. -/
theorem currentCount_save_le (rows : List ProviderRow) (app : AppType) (p : Provider)
    (app' : AppType) :
    currentCount
      (rows.filter (fun r => !(decide (r.prov.id = p.id) && decide (r.app = app)))
        ++ [{ app := app, prov := p, isCurrent := false }]) app'
      ≤ currentCount rows app' := by
  rw [currentCount_append]
  have hnew : currentCount [({ app := app, prov := p, isCurrent := false } : ProviderRow)] app' = 0 := by
    simp [currentCount]
  rw [hnew, Nat.add_zero]
  exact currentCount_filter_le rows _ app'

/-- Pointwise form of the two UPDATE statements of `set_current_provider`. -/
theorem setCurrent_providers_eq (db : DbState) (app : AppType) (id : String) :
    (Database.setCurrentProvider db app id).providers =
      db.providers.map (fun r =>
        if r.app = app then { r with isCurrent := decide (r.prov.id = id) } else r) := by
  simp only [Database.setCurrentProvider, Database.raiseCurrentFlag, Database.clearCurrentFlags,
    List.map_map]
  refine List.map_congr_left ?_
  intro r _
  by_cases happ : r.app = app
  · by_cases hid : r.prov.id = id <;> simp [Function.comp, happ, hid]
  · simp [Function.comp, happ]

theorem currentCount_eq_countP (rows : List ProviderRow) (app : AppType) :
    currentCount rows app = rows.countP (fun r => decide (r.app = app) && r.isCurrent) :=
  (List.countP_eq_length_filter _ _).symm

/-- After `set_current_provider`, the current rows of the target application
are exactly the rows keyed by the requested id. -/
theorem currentCount_setCurrent_eq (db : DbState) (app : AppType) (id : String) :
    currentCount (Database.setCurrentProvider db app id).providers app =
      (db.providers.filter (fun r => decide (r.prov.id = id) && decide (r.app = app))).length := by
  rw [setCurrent_providers_eq, currentCount_eq_countP, ← List.countP_eq_length_filter,
    List.countP_map]
  refine List.countP_congr ?_
  intro r _
  by_cases happ : r.app = app
  · by_cases hid : r.prov.id = id <;> simp [Function.comp, happ, hid]
  · simp [Function.comp, happ]

/-- `set_current_provider` leaves the other applications' flags untouched. -/
theorem currentCount_setCurrent_other (db : DbState) (app : AppType) (id : String)
    (app' : AppType) (h : app' ≠ app) :
    currentCount (Database.setCurrentProvider db app id).providers app' =
      currentCount db.providers app' := by
  rw [setCurrent_providers_eq, currentCount_eq_countP, currentCount_eq_countP,
    List.countP_map]
  refine List.countP_congr ?_
  intro r _
  by_cases happ : r.app = app
  · have hne : ¬ app = app' := Ne.symm h
    simp [Function.comp, happ, hne]
  · simp [Function.comp, happ]

theorem keyUnique_setCurrent (db : DbState) (app : AppType) (id : String)
    (h : providersKeyUnique db.providers) :
    providersKeyUnique (Database.setCurrentProvider db app id).providers := by
  rw [setCurrent_providers_eq, providersKeyUnique, List.pairwise_map]
  refine h.imp ?_
  intro r1 r2 hr key
  apply hr
  by_cases h1 : r1.app = app <;> by_cases h2 : r2.app = app <;>
    simpa [h1, h2] using key

/-- With unique keys, at most one row matches a given `(id, app)` pair. -/
theorem keyCount_le_one (rows : List ProviderRow) (id : String) (app : AppType)
    (h : providersKeyUnique rows) :
    (rows.filter (fun r => decide (r.prov.id = id) && decide (r.app = app))).length ≤ 1 := by
  refine filter_length_le_one_of_pairwise h ?_
  intro a b ha hb hR
  simp only [Bool.and_eq_true, decide_eq_true_eq] at ha hb
  exact hR ⟨ha.1.trans hb.1.symm, ha.2.trans hb.2.symm⟩

end StoreInv

/-- C1: for every application and every database satisfying the store
invariant (primary-key uniqueness and at most one `is_current = 1` row per
application), each store operation — `save_provider` (which replaces the
keyed row with a non-current fresh row), `delete_provider`,
`set_current_provider` (clear-all then set-one), and even the intermediate
state after only the clear-all statement — yields a state that again
satisfies the invariant. -/
theorem claim_C1_current_unique_preserved (db : DbState) (app : AppType) (p : Provider)
    (id : String) (h : dbInv db) :
    dbInv (Database.saveProvider db app p) ∧
    dbInv (Database.deleteProvider db app id) ∧
    dbInv (Database.setCurrentProvider db app id) ∧
    dbInv (Database.clearCurrentFlags db app) := by
  obtain ⟨hU, hC⟩ := h
  refine ⟨⟨?_, ?_⟩, ⟨?_, ?_⟩, ⟨?_, ?_⟩, ⟨?_, ?_⟩⟩
  · exact StoreInv.keyUnique_save db.providers app p hU
  · intro app'
    exact le_trans (StoreInv.currentCount_save_le db.providers app p app') (hC app')
  · exact StoreInv.keyUnique_filter _ hU
  · intro app'
    exact le_trans (StoreInv.currentCount_filter_le db.providers _ app') (hC app')
  · exact StoreInv.keyUnique_setCurrent db app id hU
  · intro app'
    by_cases happ : app' = app
    · subst happ
      rw [StoreInv.currentCount_setCurrent_eq]
      exact StoreInv.keyCount_le_one db.providers id app' hU
    · rw [StoreInv.currentCount_setCurrent_other db app id app' happ]
      exact hC app'
  · rw [Database.clearCurrentFlags, providersKeyUnique, List.pairwise_map]
    refine hU.imp ?_
    intro r1 r2 hr key
    apply hr
    by_cases h1 : r1.app = app <;> by_cases h2 : r2.app = app <;>
      simpa [h1, h2] using key
  · intro app'
    have : currentCount (Database.clearCurrentFlags db app).providers app' ≤
        currentCount db.providers app' := by
      rw [Database.clearCurrentFlags, StoreInv.currentCount_eq_countP,
        StoreInv.currentCount_eq_countP, List.countP_map]
      refine List.countP_mono_left ?_
      intro r _ hr
      by_cases happ : r.app = app
      · simp [Function.comp, happ] at hr
      · simpa [Function.comp, happ] using hr
    exact le_trans this (hC app')

/-- Witness for C1 at a concrete two-row database. -/
theorem claim_C1_current_unique_preserved_witness :
    dbInv ⟨[⟨.claude, { id := "a", name := "A", settingsConfig := .null }, true⟩,
            ⟨.claude, { id := "b", name := "B", settingsConfig := .null }, false⟩], []⟩ ∧
    dbInv (Database.setCurrentProvider
      ⟨[⟨.claude, { id := "a", name := "A", settingsConfig := .null }, true⟩,
        ⟨.claude, { id := "b", name := "B", settingsConfig := .null }, false⟩], []⟩ .claude "b") := by
  have hinv : dbInv ⟨[⟨.claude, { id := "a", name := "A", settingsConfig := .null }, true⟩,
      ⟨.claude, { id := "b", name := "B", settingsConfig := .null }, false⟩], []⟩ := by
    constructor
    · simp [providersKeyUnique]
    · intro app
      cases app <;> simp [currentCount, List.filter_cons]
  exact ⟨hinv,
    (claim_C1_current_unique_preserved _ .claude
      { id := "a", name := "A", settingsConfig := .null } "b" hinv).2.2.1⟩

/-- `AppType::display_name` from `app_config.rs`. -/
def AppType.displayName : AppType → String
  | .claude => "Claude Code"
  | .codex => "Codex CLI"
  | .gemini => "Gemini CLI"
  | .opencode => "OpenCode"

/-- `VisibleApps` from `settings.rs`. -/
structure VisibleApps where
  claude : Bool := true
  codex : Bool := true
  gemini : Bool := true
  opencode : Bool := true
  deriving Repr

/-- `AppSettings` from `settings.rs`: the device-local settings overlay
(`~/.cc-switch/settings.json`).  The process-wide cache and the on-disk
JSON document always hold the same value after a mutation
(`update_settings` writes both), so one value models both. -/
structure AppSettings where
  claudeConfigDir : Option String := none
  codexConfigDir : Option String := none
  geminiConfigDir : Option String := none
  opencodeConfigDir : Option String := none
  currentProviderClaude : Option String := none
  currentProviderCodex : Option String := none
  currentProviderGemini : Option String := none
  visibleApps : Option VisibleApps := none
  defaultApp : Option String := none
  colorOutput : Bool := true
  outputFormat : Option String := none
  deriving Repr

/-- `AppSettings::get_current_provider` from `settings.rs`: OpenCode has no
current-provider concept in the overlay. -/
def AppSettings.getCurrentProvider (s : AppSettings) : AppType → Option String
  | .claude => s.currentProviderClaude
  | .codex => s.currentProviderCodex
  | .gemini => s.currentProviderGemini
  | .opencode => none

/-- `AppSettings::set_current_provider` from `settings.rs`. -/
def AppSettings.setCurrentProvider (s : AppSettings) (app : AppType)
    (id : Option String) : AppSettings :=
  match app with
  | .claude => { s with currentProviderClaude := id }
  | .codex => { s with currentProviderCodex := id }
  | .gemini => { s with currentProviderGemini := id }
  | .opencode => s

/-- Identity of a live config file written by the sync engine.  The concrete
paths are resolved from the environment by `config.rs`; only their identity
matters to the service layer. -/
inductive LivePath where
  | claudeSettings
  | codexConfig
  | codexAuth
  | geminiSettings
  | promptFile (app : AppType)
  deriving DecidableEq, Repr

/-- Content of a live config file: one JSON document or verbatim text. -/
inductive FileContent where
  | json (v : JsonVal)
  | text (t : String)
  deriving Repr

/-- The text the file holds when read back with `read_to_string` (prompt
files are only ever written as text). -/
def FileContent.asText : FileContent → String
  | .text t => t
  | .json _ => ""

/-- The whole state a service operation can touch: the SQLite store, the
local settings overlay, the live config files, and a ghost log of every
live-file write performed (so "exactly one write" is expressible). -/
structure SysState where
  db : DbState
  overlay : AppSettings
  files : List (LivePath × FileContent)
  log : List (LivePath × FileContent)
  deriving Repr

/-- Current content of a live file, `none` when the file does not exist. -/
def fileAt (s : SysState) (p : LivePath) : Option FileContent :=
  (s.files.find? (fun kv => decide (kv.1 = p))).map (·.2)

/-- Replace (or create) one entry of the file map. -/
def setFileEntry (files : List (LivePath × FileContent)) (p : LivePath)
    (c : FileContent) : List (LivePath × FileContent) :=
  (p, c) :: files.filter (fun kv => !(decide (kv.1 = p)))

/-- One atomic live-file write (`write_json_file` / `write_text_file` of
`config.rs`): update the file and record the write in the ghost log. -/
def writeLive (s : SysState) (p : LivePath) (c : FileContent) : SysState :=
  { s with files := setFileEntry s.files p c, log := s.log ++ [(p, c)] }

/-- `settings::set_current_provider` (`settings.rs`): update the overlay
value (cache and overlay file change together). -/
def setOverlayCurrent (s : SysState) (app : AppType) (id : Option String) : SysState :=
  { s with overlay := s.overlay.setCurrentProvider app id }

/-- Rust `str::contains`: substring containment (for the ASCII needles used
by the validator, byte-level and character-level containment agree). -/
def strContains (hay needle : String) : Bool :=
  decide (needle.toList <:+: hay.toList)

/-- Rust `str::to_lowercase`, modelled per character. -/
def lowerStr (s : String) : String := s.map Char.toLower

namespace ProviderService

/-- `ProviderService::validate_claude_settings` (`services/provider.rs`):
requires a non-empty `ANTHROPIC_API_KEY` or `ANTHROPIC_AUTH_TOKEN` string
under the `env` object. -/
def validateClaudeSettings (p : Provider) : Except AppError Unit :=
  let env := p.settingsConfig.get "env"
  let hasApiKey :=
    (((env.bind (fun e => e.get "ANTHROPIC_API_KEY")).bind JsonVal.asStr).map
      (fun s => !s.isEmpty)).getD false
  let hasAuthToken :=
    (((env.bind (fun e => e.get "ANTHROPIC_AUTH_TOKEN")).bind JsonVal.asStr).map
      (fun s => !s.isEmpty)).getD false
  if !hasApiKey && !hasAuthToken then
    .error (.InvalidInput "Claude 供应商需要配置 ANTHROPIC_API_KEY 或 ANTHROPIC_AUTH_TOKEN")
  else
    .ok ()

/-- `ProviderService::validate_codex_settings`: authentication must appear in
the `config` TOML text or the `auth` text must be non-empty. -/
def validateCodexSettings (p : Provider) : Except AppError Unit :=
  let config := ((p.settingsConfig.get "config").bind JsonVal.asStr).getD ""
  let auth := ((p.settingsConfig.get "auth").bind JsonVal.asStr).getD ""
  let hasAuthInConfig := strContains config "api_key" || strContains config "access_token"
  let hasAuthFile := !auth.isEmpty
  if !hasAuthInConfig && !hasAuthFile then
    .error (.InvalidInput "Codex 供应商需要配置 auth 认证信息")
  else
    .ok ()

/-- `ProviderService::validate_gemini_settings`: a non-empty top-level
`apiKey` string is required. -/
def validateGeminiSettings (p : Provider) : Except AppError Unit :=
  let hasApiKey :=
    (((p.settingsConfig.get "apiKey").bind JsonVal.asStr).map (fun s => !s.isEmpty)).getD false
  if !hasApiKey then
    .error (.InvalidInput "Gemini 供应商需要配置 apiKey")
  else
    .ok ()

/-- `ProviderService::validate_provider_settings`: dispatch per application;
OpenCode always passes. -/
def validateProviderSettings (app : AppType) (p : Provider) : Except AppError Unit :=
  match app with
  | .claude => validateClaudeSettings p
  | .codex => validateCodexSettings p
  | .gemini => validateGeminiSettings p
  | .opencode => .ok ()

/-- `ProviderService::write_claude_live`: the provider's whole
`settings_config` is written as the settings document (the existing file is
not read or merged). -/
def writeClaudeLive (s : SysState) (p : Provider) : SysState :=
  writeLive s .claudeSettings (.json p.settingsConfig)

/-- `ProviderService::write_codex_live`: write `config` and/or `auth`
verbatim, each only when present as a string. -/
def writeCodexLive (s : SysState) (p : Provider) : SysState :=
  let s1 :=
    match (p.settingsConfig.get "config").bind JsonVal.asStr with
    | some config => writeLive s .codexConfig (.text config)
    | none => s
  match (p.settingsConfig.get "auth").bind JsonVal.asStr with
  | some auth => writeLive s1 .codexAuth (.text auth)
  | none => s1

/-- `ProviderService::write_gemini_live`. -/
def writeGeminiLive (s : SysState) (p : Provider) : SysState :=
  writeLive s .geminiSettings (.json p.settingsConfig)

/-- `ProviderService::write_opencode_live`: unimplemented in the source
(`TODO`), it returns `Ok(())` without writing anything. -/
def writeOpencodeLive (s : SysState) (_p : Provider) : SysState := s

/-- `ProviderService::write_live_snapshot`: dispatch per application. -/
def writeLiveSnapshot (s : SysState) (app : AppType) (p : Provider) : SysState :=
  match app with
  | .claude => writeClaudeLive s p
  | .codex => writeCodexLive s p
  | .gemini => writeGeminiLive s p
  | .opencode => writeOpencodeLive s p

/-- `ProviderService::current`: empty for the additive kind; otherwise the
overlay's cached id when it still exists in the store, else the store's own
current-provider column (empty when unset). -/
def current (s : SysState) (app : AppType) : String :=
  if app.isAdditiveMode then ""
  else
    match s.overlay.getCurrentProvider app with
    | some id =>
        if ((Database.getAllProviders s.db app).lookup id).isSome then id
        else (Database.getCurrentProvider s.db app).getD ""
    | none => (Database.getCurrentProvider s.db app).getD ""

/-- `ProviderService::add`: validate, persist; an additive app live-syncs at
once; an exclusive app with no current provider makes the new one current
(store column, overlay) and live-syncs it. -/
def add (s : SysState) (app : AppType) (p : Provider) :
    Except AppError Bool × SysState :=
  match validateProviderSettings app p with
  | .error e => (.error e, s)
  | .ok _ =>
    let s1 := { s with db := Database.saveProvider s.db app p }
    if app.isAdditiveMode then
      (.ok true, writeLiveSnapshot s1 app p)
    else
      match Database.getCurrentProvider s1.db app with
      | none =>
          let s2 := { s1 with db := Database.setCurrentProvider s1.db app p.id }
          let s3 := setOverlayCurrent s2 app (some p.id)
          (.ok true, writeLiveSnapshot s3 app p)
      | some _ => (.ok true, s1)

/-- `ProviderService::update`: validate, persist; live-sync when additive or
when the updated provider is the current one. -/
def update (s : SysState) (app : AppType) (p : Provider) :
    Except AppError Bool × SysState :=
  match validateProviderSettings app p with
  | .error e => (.error e, s)
  | .ok _ =>
    let s1 := { s with db := Database.saveProvider s.db app p }
    if app.isAdditiveMode then
      (.ok true, writeLiveSnapshot s1 app p)
    else if current s1 app = p.id then
      (.ok true, writeLiveSnapshot s1 app p)
    else
      (.ok true, s1)

/-- `ProviderService::delete`: additive deletes are unconditional; an
exclusive app refuses to delete its current provider. -/
def delete (s : SysState) (app : AppType) (id : String) :
    Except AppError Unit × SysState :=
  if app.isAdditiveMode then
    (.ok (), { s with db := Database.deleteProvider s.db app id })
  else if current s app = id then
    (.error (.Message "无法删除当前正在使用的供应商"), s)
  else
    (.ok (), { s with db := Database.deleteProvider s.db app id })

/-- `ProviderService::switch`: fail with `ProviderNotFound` when the id is
absent; otherwise overlay, store column, then live sync. -/
def switch (s : SysState) (app : AppType) (id : String) :
    Except AppError Unit × SysState :=
  match (Database.getAllProviders s.db app).lookup id with
  | none => (.error (.ProviderNotFound id), s)
  | some p =>
      let s1 := setOverlayCurrent s app (some id)
      let s2 := { s1 with db := Database.setCurrentProvider s1.db app id }
      (.ok (), writeLiveSnapshot s2 app p)

/-- `ProviderService::find`: exact id match, then first case-insensitive
name match, then first lowercase name-prefix match.  (The Rust function
returns `Result<Option<_>>` but only ever errs on a store failure, which the
pure store cannot produce.) -/
def find (s : SysState) (app : AppType) (nameOrId : String) : Option Provider :=
  let providers := Database.getAllProviders s.db app
  match providers.lookup nameOrId with
  | some p => some p
  | none =>
    let nameLower := lowerStr nameOrId
    match providers.find? (fun kv => lowerStr kv.2.name == nameLower) with
    | some kv => some kv.2
    | none =>
        (providers.find? (fun kv => (lowerStr kv.2.name).startsWith nameLower)).map (·.2)

end ProviderService

namespace Database

/-- The `ORDER BY created_at ASC` ordering of `get_all_prompts`. -/
def promptRowLe (r1 r2 : PromptRow) : Bool :=
  optIntLe r1.prompt.createdAt r2.prompt.createdAt

/-- `Database::get_all_prompts` (`database/prompt.rs`). -/
def getAllPrompts (db : DbState) (app : AppType) : List (String × Prompt) :=
  ((db.prompts.filter (fun r => decide (r.app = app))).insertionSort
      (fun r1 r2 => promptRowLe r1 r2 = true)).map
    (fun r => (r.prompt.id, r.prompt))

/-- `Database::get_prompt`: lookup in the per-application map. -/
def getPrompt (db : DbState) (app : AppType) (id : String) : Option Prompt :=
  (getAllPrompts db app).lookup id

/-- `Database::save_prompt`: `INSERT OR REPLACE` keyed on `(id, app_type)`. -/
def savePrompt (db : DbState) (app : AppType) (p : Prompt) : DbState :=
  { db with
    prompts :=
      db.prompts.filter (fun r => !(decide (r.prompt.id = p.id) && decide (r.app = app)))
        ++ [{ app := app, prompt := p }] }

/-- `Database::delete_prompt`. -/
def deletePrompt (db : DbState) (app : AppType) (id : String) : DbState :=
  { db with
    prompts :=
      db.prompts.filter (fun r => !(decide (r.prompt.id = id) && decide (r.app = app))) }

/-- `Database::update_prompt_enabled`: one UPDATE statement setting `enabled`
and `updated_at` on the `(id, app_type)` row; `now` is the wall-clock value
the Rust code reads from `chrono`. -/
def updatePromptEnabled (db : DbState) (app : AppType) (id : String)
    (enabled : Bool) (now : Int) : DbState :=
  { db with
    prompts :=
      db.prompts.map (fun r =>
        if r.prompt.id = id ∧ r.app = app then
          { r with prompt := { r.prompt with enabled := enabled, updatedAt := some now } }
        else r) }

/-- `Database::get_enabled_prompt`: the first enabled prompt in map order. -/
def getEnabledPrompt (db : DbState) (app : AppType) : Option Prompt :=
  ((getAllPrompts db app).map (·.2)).find? (·.enabled)

end Database

namespace PromptService

/-- `PromptService::sync_to_app` (`services/prompt.rs`): write the enabled
prompt's content, or truncate the existing file to empty when no prompt is
enabled (no write when the file does not exist). -/
def syncToApp (s : SysState) (app : AppType) : SysState :=
  match Database.getEnabledPrompt s.db app with
  | some p => writeLive s (.promptFile app) (.text p.content)
  | none =>
      if (fileAt s (.promptFile app)).isSome then
        writeLive s (.promptFile app) (.text "")
      else s

/-- `PromptService::add`: reject a duplicate id, persist the prompt exactly
as given (its `enabled` flag included), and sync only when it is enabled. -/
def add (s : SysState) (app : AppType) (p : Prompt) :
    Except AppError Unit × SysState :=
  if (Database.getPrompt s.db app p.id).isSome then
    (.error (.InvalidInput ("Prompt '" ++ p.id ++ "' 已存在")), s)
  else
    let s1 := { s with db := Database.savePrompt s.db app p }
    if p.enabled then (.ok (), syncToApp s1 app) else (.ok (), s1)

/-- `PromptService::update`: the prompt must exist; persist it as given and
sync. -/
def update (s : SysState) (app : AppType) (p : Prompt) :
    Except AppError Unit × SysState :=
  if (Database.getPrompt s.db app p.id).isNone then
    (.error (.InvalidInput ("Prompt '" ++ p.id ++ "' 不存在")), s)
  else
    let s1 := { s with db := Database.savePrompt s.db app p }
    (.ok (), syncToApp s1 app)

/-- `PromptService::remove`: the prompt must exist; delete it and sync when
the removed prompt was the enabled one. -/
def remove (s : SysState) (app : AppType) (id : String) :
    Except AppError Unit × SysState :=
  match Database.getPrompt s.db app id with
  | none => (.error (.InvalidInput ("Prompt '" ++ id ++ "' 不存在")), s)
  | some pr =>
      let s1 := { s with db := Database.deletePrompt s.db app id }
      if pr.enabled then (.ok (), syncToApp s1 app) else (.ok (), s1)

/-- `PromptService::enable`: the prompt must exist; disable every other
prompt of the application (one UPDATE each, over a snapshot of the id list),
enable the requested one, and sync. -/
def enable (s : SysState) (app : AppType) (id : String) (now : Int) :
    Except AppError Unit × SysState :=
  if (Database.getPrompt s.db app id).isNone then
    (.error (.InvalidInput ("Prompt '" ++ id ++ "' 不存在")), s)
  else
    let ids := (Database.getAllPrompts s.db app).map (·.1)
    let db1 := ids.foldl
      (fun db pid =>
        if pid ≠ id then Database.updatePromptEnabled db app pid false now else db)
      s.db
    let db2 := Database.updatePromptEnabled db1 app id true now
    (.ok (), syncToApp { s with db := db2 } app)

/-- `PromptService::disable`: the prompt must exist; clear its flag and
sync. -/
def disable (s : SysState) (app : AppType) (id : String) (now : Int) :
    Except AppError Unit × SysState :=
  if (Database.getPrompt s.db app id).isNone then
    (.error (.InvalidInput ("Prompt '" ++ id ++ "' 不存在")), s)
  else
    (.ok (), syncToApp { s with db := Database.updatePromptEnabled s.db app id false now } app)

/-- `PromptService::import_from_app`: read the application's prompt file;
nothing to do when it is absent or blank; otherwise disable every stored
prompt of the application and save the imported content as a new enabled
prompt (`now` is the timestamp used for the generated id). -/
def importFromApp (s : SysState) (app : AppType) (now : Int) :
    Except AppError (Option String) × SysState :=
  match fileAt s (.promptFile app) with
  | none => (.ok none, s)
  | some c =>
      let content := c.asText
      if content.trim.isEmpty then (.ok none, s)
      else
        let id := "imported-" ++ toString now
        let name := "从 " ++ app.displayName ++ " 导入"
        let p : Prompt :=
          { id := id, name := name, content := content, enabled := true,
            createdAt := some now, updatedAt := some now }
        let ids := (Database.getAllPrompts s.db app).map (·.1)
        let db1 := ids.foldl
          (fun db pid => Database.updatePromptEnabled db app pid false now) s.db
        let db2 := Database.savePrompt db1 app p
        (.ok (some id), { s with db := db2 })

end PromptService

/-- Primary-key uniqueness of the `prompts` table. -/
def promptsKeyUnique (rows : List PromptRow) : Prop :=
  rows.Pairwise (fun r1 r2 => ¬(r1.prompt.id = r2.prompt.id ∧ r1.app = r2.app))

/-- Number of enabled prompt rows of one application. -/
def enabledPromptCount (rows : List PromptRow) (app : AppType) : Nat :=
  (rows.filter (fun r => decide (r.app = app) && r.prompt.enabled)).length

namespace AtomicFile

/-- A path as `atomic_write` (`config.rs`) decomposes it: the parent
directory and the file name.  (The `Config`-error branches for a path with
no parent or no file name are unreachable for such paths and are not
modelled.) -/
structure RawPath where
  dir : String
  fileName : String
  deriving DecidableEq, Repr

/-- Full path string, used to key the file system and to tag errors. -/
def RawPath.full (p : RawPath) : String := p.dir ++ "/" ++ p.fileName

/-- A raw byte-level file system: contents and POSIX permission bits per
path. -/
structure RawFs where
  contents : List (String × List Nat)
  perms : List (String × Nat)
  deriving Repr

def lookupKV {β : Type} (l : List (String × β)) (k : String) : Option β :=
  (l.find? (fun kv => kv.1 == k)).map (·.2)

def setKV {β : Type} (l : List (String × β)) (k : String) (v : β) :
    List (String × β) :=
  (k, v) :: l.filter (fun kv => !(kv.1 == k))

def removeKV {β : Type} (l : List (String × β)) (k : String) : List (String × β) :=
  l.filter (fun kv => !(kv.1 == k))

/-- Which steps of `atomic_write` fail, injected as an oracle; `writtenOnFail`
is how many bytes reached the temp file before a failed `write_all`. -/
structure FailSpec where
  createDirFails : Bool := false
  createTmpFails : Bool := false
  writeFails : Bool := false
  writtenOnFail : Nat := 0
  flushFails : Bool := false
  metadataFails : Bool := false
  setPermFails : Bool := false
  renameFails : Bool := false
  deriving Repr

/-- `atomic_write` (`config.rs`), step by step under a failure oracle:
ensure the parent directory, create `<name>.tmp.<ts>` beside the target,
write and flush the bytes, copy the target's permission bits onto the temp
file when the target exists (a failed metadata read or a failed
`set_permissions` is silently ignored — `let _ =` in the source), then
rename the temp file over the target.  `defaultMode` is the mode a freshly
created file receives. -/
def atomicWrite (fs : RawFs) (f : FailSpec) (path : RawPath) (data : List Nat)
    (ts : Nat) (defaultMode : Nat) : Except AppError Unit × RawFs :=
  if f.createDirFails then (.error (.Io path.dir), fs)
  else
    let tmp : RawPath := ⟨path.dir, path.fileName ++ ".tmp." ++ toString ts⟩
    if f.createTmpFails then (.error (.Io tmp.full), fs)
    else
      let fs1 : RawFs :=
        { contents := setKV fs.contents tmp.full [],
          perms := setKV fs.perms tmp.full defaultMode }
      if f.writeFails then
        (.error (.Io tmp.full),
          { fs1 with contents := setKV fs1.contents tmp.full (data.take f.writtenOnFail) })
      else
        let fs2 : RawFs := { fs1 with contents := setKV fs1.contents tmp.full data }
        if f.flushFails then (.error (.Io tmp.full), fs2)
        else
          let fs3 : RawFs :=
            if f.metadataFails then fs2
            else
              match lookupKV fs.perms path.full with
              | some mode =>
                  if f.setPermFails then fs2
                  else { fs2 with perms := setKV fs2.perms tmp.full mode }
              | none => fs2
          if f.renameFails then
            (.error (.IoContext ("原子替换失败: " ++ tmp.full ++ " -> " ++ path.full)), fs3)
          else
            let tmpMode := (lookupKV fs3.perms tmp.full).getD defaultMode
            (.ok (),
              { contents := setKV (removeKV fs3.contents tmp.full) path.full data,
                perms := setKV (removeKV fs3.perms tmp.full) path.full tmpMode })

end AtomicFile

namespace ListFacts

theorem lookup_isSome_iff {β : Type} {l : List (String × β)} {k : String} :
    (l.lookup k).isSome ↔ ∃ kv ∈ l, kv.1 = k := by
  induction l with
  | nil => simp [List.lookup]
  | cons kv l ih =>
    by_cases h : k = kv.1
    · simp [List.lookup, beq_iff_eq, h]
    · have hne : (k == kv.1) = false := beq_eq_false_iff_ne.mpr h
      simp only [List.lookup, hne, List.mem_cons]
      rw [ih]
      constructor
      · rintro ⟨p, hp, rfl⟩
        exact ⟨p, Or.inr hp, rfl⟩
      · rintro ⟨p, hp, rfl⟩
        rcases hp with rfl | hp
        · exact absurd rfl h
        · exact ⟨p, hp, rfl⟩

theorem lookup_eq_none_iff {β : Type} {l : List (String × β)} {k : String} :
    l.lookup k = none ↔ ∀ kv ∈ l, kv.1 ≠ k := by
  rw [← Option.not_isSome_iff_eq_none, lookup_isSome_iff]
  push_neg
  rfl

/-- `find?` returns the element at the first index satisfying the
predicate. -/
theorem find?_eq_of_first {α : Type} {l : List α} {pr : α → Bool} (i : Fin l.length)
    (hi : pr (l.get i) = true) (hj : ∀ j : Fin l.length, (j : Nat) < (i : Nat) → pr (l.get j) ≠ true) :
    l.find? pr = some (l.get i) := by
  induction l with
  | nil => exact absurd i.isLt (by simp)
  | cons x xs ih =>
    rcases i with ⟨iv, hlt⟩
    cases iv with
    | zero =>
        simp only [List.get] at hi
        simp [List.find?_cons, hi]
    | succ n =>
        have hx : pr x ≠ true := hj ⟨0, Nat.zero_lt_succ _⟩ (Nat.succ_pos n)
        have hx' : pr x = false := Bool.eq_false_iff.mpr hx
        simp only [List.find?_cons, hx']
        exact ih ⟨n, Nat.lt_of_succ_lt_succ hlt⟩ hi
          (fun j hjn => hj ⟨j + 1, Nat.succ_lt_succ j.isLt⟩ (Nat.succ_lt_succ hjn))

/-- `lookup` returns the value at the first index whose key matches. -/
theorem lookup_eq_of_first {β : Type} {l : List (String × β)} {k : String}
    (i : Fin l.length)
    (hi : (l.get i).1 = k)
    (hj : ∀ j : Fin l.length, (j : Nat) < (i : Nat) → (l.get j).1 ≠ k) :
    l.lookup k = some (l.get i).2 := by
  induction l with
  | nil => exact absurd i.isLt (by simp)
  | cons kv xs ih =>
    rcases i with ⟨iv, hlt⟩
    cases iv with
    | zero =>
        simp only [List.get] at hi
        simp [List.lookup, beq_iff_eq, hi]
    | succ n =>
        have hx : kv.1 ≠ k := hj ⟨0, Nat.zero_lt_succ _⟩ (Nat.succ_pos n)
        have hx' : (k == kv.1) = false := beq_eq_false_iff_ne.mpr (Ne.symm hx)
        simp only [List.lookup, hx']
        exact ih ⟨n, Nat.lt_of_succ_lt_succ hlt⟩ hi
          (fun j hjn => hj ⟨j + 1, Nat.succ_lt_succ j.isLt⟩ (Nat.succ_lt_succ hjn))

/-- Filtering with a predicate that keeps the found element does not change
the result of `find?`. -/
theorem find?_filter_of_found {α : Type} {l : List α} {pr f : α → Bool} {a : α}
    (h : l.find? pr = some a) (hf : f a = true) :
    (l.filter f).find? pr = some a := by
  induction l with
  | nil => simp at h
  | cons x xs ih =>
    by_cases hp : pr x = true
    · rw [List.find?_cons_of_pos _ hp] at h
      cases h
      rw [List.filter_cons_of_pos hf]
      exact List.find?_cons_of_pos _ hp
    · have hp' : pr x = false := Bool.eq_false_iff.mpr hp
      rw [List.find?_cons_of_neg _ (by simp [hp'])] at h
      by_cases hfx : f x = true
      · rw [List.filter_cons_of_pos hfx, List.find?_cons_of_neg _ (by simp [hp'])]
        exact ih h
      · rw [List.filter_cons_of_neg (by simpa using hfx)]
        exact ih h

/-- Filtering with a predicate implied by the search predicate does not
change the result of `find?`. -/
theorem find?_filter_of_imp {α : Type} {l : List α} {pr f : α → Bool}
    (h : ∀ a, pr a = true → f a = true) :
    (l.filter f).find? pr = l.find? pr := by
  induction l with
  | nil => rfl
  | cons x xs ih =>
    by_cases hf : f x = true
    · by_cases hp : pr x = true
      · rw [List.filter_cons_of_pos hf, List.find?_cons_of_pos _ hp,
          List.find?_cons_of_pos _ hp]
      · have hp' : pr x = false := Bool.eq_false_iff.mpr hp
        rw [List.filter_cons_of_pos hf, List.find?_cons_of_neg _ (by simp [hp']),
          List.find?_cons_of_neg _ (by simp [hp']), ih]
    · have hp' : pr x = false := by
        cases hpx : pr x
        · rfl
        · exact absurd (h x hpx) hf
      rw [List.filter_cons_of_neg (by simpa using hf),
        List.find?_cons_of_neg _ (by simp [hp']), ih]

theorem find?_append_of_found {α : Type} {l₁ l₂ : List α} {pr : α → Bool} {a : α}
    (h : l₁.find? pr = some a) : (l₁ ++ l₂).find? pr = some a := by
  induction l₁ with
  | nil => simp at h
  | cons x xs ih =>
    by_cases hp : pr x = true
    · rw [List.find?_cons_of_pos _ hp] at h
      cases h
      exact List.find?_cons_of_pos _ hp
    · have hp' : pr x = false := Bool.eq_false_iff.mpr hp
      rw [List.find?_cons_of_neg _ (by simp [hp'])] at h
      rw [List.cons_append, List.find?_cons_of_neg _ (by simp [hp'])]
      exact ih h

theorem find?_append_of_none {α : Type} {l₁ l₂ : List α} {pr : α → Bool}
    (h : ∀ a ∈ l₁, ¬ pr a = true) : (l₁ ++ l₂).find? pr = l₂.find? pr := by
  induction l₁ with
  | nil => rfl
  | cons x xs ih =>
    have hp' : pr x = false := Bool.eq_false_iff.mpr (h x (List.mem_cons_self x xs))
    rw [List.cons_append, List.find?_cons_of_neg _ (by simp [hp'])]
    exact ih (fun a ha => h a (List.mem_cons_of_mem x ha))

end ListFacts

/-- The JSON field a live JSON file holds at a key (`none` when the file is
absent, not JSON, or lacks the key). -/
def liveJsonField (s : SysState) (p : LivePath) (key : String) : Option JsonVal :=
  match fileAt s p with
  | some (.json v) => v.get key
  | _ => none

theorem fileAt_writeLive_self (s : SysState) (p : LivePath) (c : FileContent) :
    fileAt (writeLive s p c) p = some c := by
  simp [fileAt, writeLive, setFileEntry]

theorem fileAt_writeLive_other (s : SysState) (p q : LivePath) (c : FileContent)
    (h : q ≠ p) : fileAt (writeLive s p c) q = fileAt s q := by
  simp only [fileAt, writeLive, setFileEntry]
  rw [List.find?_cons_of_neg _ (by simp [Ne.symm h])]
  rw [ListFacts.find?_filter_of_imp]
  intro kv hkv
  simp only [decide_eq_true_eq] at hkv
  simp [hkv, h]

/-- One membership characterization of the provider map built by
`get_all_providers`. -/
theorem mem_getAllProviders {db : DbState} {app : AppType} {kv : String × Provider} :
    kv ∈ Database.getAllProviders db app ↔
      ∃ r ∈ db.providers, r.app = app ∧ kv = (r.prov.id, r.prov) := by
  simp only [Database.getAllProviders, List.mem_map]
  constructor
  · rintro ⟨r, hr, rfl⟩
    rw [List.mem_insertionSort] at hr
    rcases List.mem_filter.mp hr with ⟨hmem, hcond⟩
    exact ⟨r, hmem, by simpa using hcond, rfl⟩
  · rintro ⟨r, hmem, happ, rfl⟩
    refine ⟨r, ?_, rfl⟩
    rw [List.mem_insertionSort]
    exact List.mem_filter.mpr ⟨hmem, by simpa⟩

/-- The provider map has an entry for an id exactly when the table has a row
keyed by that id for the application. -/
theorem getAllProviders_lookup_isSome {db : DbState} {app : AppType} {id : String} :
    ((Database.getAllProviders db app).lookup id).isSome ↔
      ∃ r ∈ db.providers, r.app = app ∧ r.prov.id = id := by
  rw [ListFacts.lookup_isSome_iff]
  constructor
  · rintro ⟨kv, hkv, rfl⟩
    rcases mem_getAllProviders.mp hkv with ⟨r, hmem, happ, rfl⟩
    exact ⟨r, hmem, happ, rfl⟩
  · rintro ⟨r, hmem, happ, rfl⟩
    exact ⟨(r.prov.id, r.prov), mem_getAllProviders.mpr ⟨r, hmem, happ, rfl⟩, rfl⟩

theorem getAllProviders_lookup_eq_none {db : DbState} {app : AppType} {id : String}
    (h : ∀ r ∈ db.providers, ¬(r.app = app ∧ r.prov.id = id)) :
    (Database.getAllProviders db app).lookup id = none := by
  rw [← Option.not_isSome_iff_eq_none, getAllProviders_lookup_isSome]
  rintro ⟨r, hmem, happ, hid⟩
  exact h r hmem ⟨happ, hid⟩

/-- C3: when no provider row of the application carries the requested id,
`ProviderService::switch` fails with `ProviderNotFound` and returns with the
whole system state — store, overlay, live files, write log — exactly as it
was. -/
theorem claim_C3_switch_unknown_id_no_change (s : SysState) (app : AppType) (id : String)
    (h : ∀ r ∈ s.db.providers, ¬(r.app = app ∧ r.prov.id = id)) :
    ProviderService.switch s app id = (.error (.ProviderNotFound id), s) := by
  unfold ProviderService.switch
  rw [getAllProviders_lookup_eq_none h]

/-- Witness for C3: switching an empty store errs and changes nothing. -/
theorem claim_C3_switch_unknown_id_no_change_witness :
    (∀ r ∈ (⟨⟨[], []⟩, {}, [], []⟩ : SysState).db.providers,
        ¬(r.app = .claude ∧ r.prov.id = "ghost")) ∧
    ProviderService.switch ⟨⟨[], []⟩, {}, [], []⟩ .claude "ghost" =
      (.error (.ProviderNotFound "ghost"), ⟨⟨[], []⟩, {}, [], []⟩) := by
  refine ⟨by simp, ?_⟩
  exact claim_C3_switch_unknown_id_no_change ⟨⟨[], []⟩, {}, [], []⟩ .claude "ghost" (by simp)

/-- C8: `ProviderService::current` is the two-tier read the spec describes —
empty for the additive kind; for an exclusive kind the overlay's cached id
wins exactly when a provider row with that id exists for the application,
and in every other case (no cached id, or a stale cached id) the store's own
current-provider column decides, with the empty string standing for "none". -/
theorem claim_C8_current_two_tier (s : SysState) (app : AppType) :
    (app.isAdditiveMode = true → ProviderService.current s app = "") ∧
    (app.isAdditiveMode = false →
      (∀ id, s.overlay.getCurrentProvider app = some id →
        (∃ r ∈ s.db.providers, r.app = app ∧ r.prov.id = id) →
        ProviderService.current s app = id) ∧
      (∀ id, s.overlay.getCurrentProvider app = some id →
        (∀ r ∈ s.db.providers, ¬(r.app = app ∧ r.prov.id = id)) →
        ProviderService.current s app = (Database.getCurrentProvider s.db app).getD "") ∧
      (s.overlay.getCurrentProvider app = none →
        ProviderService.current s app = (Database.getCurrentProvider s.db app).getD "")) := by
  constructor
  · intro hAdd
    simp [ProviderService.current, hAdd]
  · intro hExcl
    refine ⟨?_, ?_, ?_⟩
    · intro id hov hex
      have hsome : ((Database.getAllProviders s.db app).lookup id).isSome :=
        getAllProviders_lookup_isSome.mpr hex
      simp [ProviderService.current, hExcl, hov, hsome]
    · intro id hov hnone
      have h0 : (Database.getAllProviders s.db app).lookup id = none :=
        getAllProviders_lookup_eq_none hnone
      simp [ProviderService.current, hExcl, hov, h0]
    · intro hov
      simp [ProviderService.current, hExcl, hov]

/-- Witness for C8: a stale cached id falls back to the store column. -/
theorem claim_C8_current_two_tier_witness :
    (AppType.isAdditiveMode .claude = false) ∧
    ProviderService.current
      ⟨⟨[⟨.claude, { id := "a", name := "A", settingsConfig := .null }, true⟩], []⟩,
        { currentProviderClaude := some "gone" }, [], []⟩ .claude = "a" := by
  refine ⟨rfl, ?_⟩
  have h := (claim_C8_current_two_tier
    ⟨⟨[⟨.claude, { id := "a", name := "A", settingsConfig := .null }, true⟩], []⟩,
      { currentProviderClaude := some "gone" }, [], []⟩ .claude).2 rfl
  have := h.2.1 "gone" rfl (by
    intro r hr
    simp at hr
    subst hr
    rintro ⟨-, hid⟩
    exact absurd hid (by decide))
  simpa [Database.getCurrentProvider] using this

/-- C6: an exclusive application refuses to delete its current provider —
the call fails with the domain error and the whole state is unchanged — and
the additive application deletes unconditionally, removing every row keyed
by the id. -/
theorem claim_C6_delete_current_guard (s : SysState) (app : AppType) (id : String) :
    (app.isAdditiveMode = false → ProviderService.current s app = id →
      ProviderService.delete s app id =
        (.error (.Message "无法删除当前正在使用的供应商"), s)) ∧
    (app.isAdditiveMode = true →
      ProviderService.delete s app id =
        (.ok (), { s with db := Database.deleteProvider s.db app id }) ∧
      ∀ r ∈ (Database.deleteProvider s.db app id).providers,
        ¬(r.app = app ∧ r.prov.id = id)) := by
  constructor
  · intro hExcl hCur
    simp [ProviderService.delete, hExcl, hCur]
  · intro hAdd
    refine ⟨by simp [ProviderService.delete, hAdd], ?_⟩
    intro r hr
    rcases List.mem_filter.mp hr with ⟨-, hcond⟩
    simp only [Bool.not_eq_true', Bool.and_eq_false_imp, decide_eq_true_eq,
      decide_eq_false_iff_not] at hcond
    rintro ⟨happ, hid⟩
    exact (hcond hid) happ

/-- Witness for C6 at a one-row store whose provider is current. -/
theorem claim_C6_delete_current_guard_witness :
    (AppType.isAdditiveMode .claude = false) ∧
    (ProviderService.current
      ⟨⟨[⟨.claude, { id := "a", name := "A", settingsConfig := .null }, true⟩], []⟩,
        {}, [], []⟩ .claude = "a") ∧
    ProviderService.delete
      ⟨⟨[⟨.claude, { id := "a", name := "A", settingsConfig := .null }, true⟩], []⟩,
        {}, [], []⟩ .claude "a" =
      (.error (.Message "无法删除当前正在使用的供应商"),
        ⟨⟨[⟨.claude, { id := "a", name := "A", settingsConfig := .null }, true⟩], []⟩,
          {}, [], []⟩) := by
  have hcur : ProviderService.current
      ⟨⟨[⟨.claude, { id := "a", name := "A", settingsConfig := .null }, true⟩], []⟩,
        {}, [], []⟩ .claude = "a" := by
    simp [ProviderService.current, AppType.isAdditiveMode, AppSettings.getCurrentProvider,
      Database.getCurrentProvider]
  refine ⟨by decide, hcur, ?_⟩
  exact (claim_C6_delete_current_guard
    ⟨⟨[⟨.claude, { id := "a", name := "A", settingsConfig := .null }, true⟩], []⟩,
      {}, [], []⟩ .claude "a").1 (by decide) hcur

/-- The rejection condition of C5, worded as the claim words it (spec-side
predicate, compared against the source validator below). -/
def specRejects (app : AppType) (v : JsonVal) : Bool :=
  match app with
  | .claude =>
      let nonEmptyEnvStr := fun (key : String) =>
        match (v.get "env").bind (fun e => JsonVal.get e key) with
        | some (.str s) => !s.isEmpty
        | _ => false
      !(nonEmptyEnvStr "ANTHROPIC_API_KEY" || nonEmptyEnvStr "ANTHROPIC_AUTH_TOKEN")
  | .codex =>
      let config := ((v.get "config").bind JsonVal.asStr).getD ""
      let auth := ((v.get "auth").bind JsonVal.asStr).getD ""
      !strContains config "api_key" && !strContains config "access_token" && auth.isEmpty
  | .gemini =>
      match v.get "apiKey" with
      | some (.str s) => s.isEmpty
      | _ => true
  | .opencode => false

theorem optStr_nonEmpty_eq (o : Option JsonVal) :
    ((o.bind JsonVal.asStr).map (fun s => !s.isEmpty)).getD false =
      (match o with
       | some (.str s) => !s.isEmpty
       | _ => false) := by
  cases o with
  | none => rfl
  | some v => cases v <;> rfl

/-- The source validator errs exactly on the states `specRejects` names. -/
theorem validate_iff_specRejects (app : AppType) (p : Provider) :
    (specRejects app p.settingsConfig = true →
      ∃ m, ProviderService.validateProviderSettings app p = .error (.InvalidInput m)) ∧
    (specRejects app p.settingsConfig = false →
      ProviderService.validateProviderSettings app p = .ok ()) := by
  cases app with
  | claude =>
      have hA := optStr_nonEmpty_eq ((p.settingsConfig.get "env").bind
        (fun e => e.get "ANTHROPIC_API_KEY"))
      have hB := optStr_nonEmpty_eq ((p.settingsConfig.get "env").bind
        (fun e => e.get "ANTHROPIC_AUTH_TOKEN"))
      simp only [specRejects, ProviderService.validateProviderSettings,
        ProviderService.validateClaudeSettings, ← hA, ← hB, Bool.not_or]
      constructor
      · intro h
        rw [h]
        exact ⟨_, rfl⟩
      · intro h
        rw [h]
        rfl
  | codex =>
      simp only [specRejects, ProviderService.validateProviderSettings,
        ProviderService.validateCodexSettings, Bool.not_or]
      cases hc1 : strContains (((p.settingsConfig.get "config").bind JsonVal.asStr).getD "")
          "api_key" <;>
        cases hc2 : strContains (((p.settingsConfig.get "config").bind JsonVal.asStr).getD "")
            "access_token" <;>
          cases ha : (((p.settingsConfig.get "auth").bind JsonVal.asStr).getD "").isEmpty <;>
            simp [hc1, hc2, ha] <;> exact ⟨_, rfl⟩
  | gemini =>
      have key : (((p.settingsConfig.get "apiKey").bind JsonVal.asStr).map
          (fun s => !s.isEmpty)).getD false = !(specRejects .gemini p.settingsConfig) := by
        simp only [specRejects]
        cases ho : p.settingsConfig.get "apiKey" with
        | none => rfl
        | some v => cases v <;> simp [JsonVal.asStr]
      constructor
      · intro h
        refine ⟨"Gemini 供应商需要配置 apiKey", ?_⟩
        show ProviderService.validateGeminiSettings p = _
        unfold ProviderService.validateGeminiSettings
        dsimp only
        rw [key, h]
        rfl
      · intro h
        show ProviderService.validateGeminiSettings p = _
        unfold ProviderService.validateGeminiSettings
        dsimp only
        rw [key, h]
        rfl
  | opencode =>
      exact ⟨fun h => Bool.noConfusion h, fun _ => rfl⟩

/-- C5: `add` and `update` fail — with an `InvalidInput` error and with the
store, overlay, live files and write log all untouched — exactly when the
per-application predicate of the claim rejects the provider's
`settings_config`; when the predicate accepts, both operations succeed. -/
theorem claim_C5_validation_gates_persistence (s : SysState) (app : AppType) (p : Provider) :
    (specRejects app p.settingsConfig = true →
      ∃ m, ProviderService.add s app p = (.error (.InvalidInput m), s) ∧
           ProviderService.update s app p = (.error (.InvalidInput m), s)) ∧
    (specRejects app p.settingsConfig = false →
      (ProviderService.add s app p).1 = .ok true ∧
      (ProviderService.update s app p).1 = .ok true) := by
  constructor
  · intro h
    obtain ⟨m, hm⟩ := (validate_iff_specRejects app p).1 h
    exact ⟨m, by simp [ProviderService.add, hm], by simp [ProviderService.update, hm]⟩
  · intro h
    have hok := (validate_iff_specRejects app p).2 h
    constructor
    · unfold ProviderService.add
      rw [hok]
      dsimp only
      split
      · rfl
      · split <;> rfl
    · unfold ProviderService.update
      rw [hok]
      dsimp only
      split
      · rfl
      · split <;> rfl

/-- Witness for C5: an empty Claude config is rejected with no state
change; a tokened one is accepted. -/
theorem claim_C5_validation_gates_persistence_witness :
    (specRejects .claude (JsonVal.obj []) = true) ∧
    (∃ m, ProviderService.add ⟨⟨[], []⟩, {}, [], []⟩ .claude
        { id := "p", name := "P", settingsConfig := .obj [] } =
        (.error (.InvalidInput m), ⟨⟨[], []⟩, {}, [], []⟩) ∧
      ProviderService.update ⟨⟨[], []⟩, {}, [], []⟩ .claude
        { id := "p", name := "P", settingsConfig := .obj [] } =
        (.error (.InvalidInput m), ⟨⟨[], []⟩, {}, [], []⟩)) := by
  refine ⟨rfl, ?_⟩
  exact (claim_C5_validation_gates_persistence ⟨⟨[], []⟩, {}, [], []⟩ .claude
    { id := "p", name := "P", settingsConfig := .obj [] }).1 rfl

/-- C4 counterexample: with `{"foo": 1}` on disk and a `settings_config`
without `"foo"`, `write_claude_live` produces a file that no longer holds
`"foo"` — nothing is read back or merged, contradicting the claim that
pre-existing keys absent from `settings_config` survive the write. -/
theorem claim_C4_counterexample :
    liveJsonField
      (⟨⟨[], []⟩, {}, [(.claudeSettings, .json (.obj [("foo", .num 1)]))], []⟩ : SysState)
      .claudeSettings "foo" = some (.num 1) ∧
    liveJsonField
      (ProviderService.writeClaudeLive
        ⟨⟨[], []⟩, {}, [(.claudeSettings, .json (.obj [("foo", .num 1)]))], []⟩
        { id := "p", name := "P",
          settingsConfig := .obj [("env", .obj [("ANTHROPIC_AUTH_TOKEN", .str "t")])] })
      .claudeSettings "foo" = none := by
  constructor <;> rfl

/-- C4 (amended): `write_claude_live` replaces the Claude settings file with
the provider's `settings_config` wholesale — the written document is exactly
`settings_config`, independent of whatever the file held before — and no
other live file changes. -/
theorem claim_C4_claude_live_overwrites (s : SysState) (p : Provider) :
    fileAt (ProviderService.writeClaudeLive s p) .claudeSettings =
      some (.json p.settingsConfig) ∧
    ∀ q : LivePath, q ≠ .claudeSettings →
      fileAt (ProviderService.writeClaudeLive s p) q = fileAt s q := by
  refine ⟨fileAt_writeLive_self s .claudeSettings _, ?_⟩
  intro q hq
  exact fileAt_writeLive_other s .claudeSettings q _ hq

/-- Witness for C4 (amended) at a concrete state with an unrelated Codex
file present. -/
theorem claim_C4_claude_live_overwrites_witness :
    fileAt
      (ProviderService.writeClaudeLive
        ⟨⟨[], []⟩, {}, [(.codexConfig, .text "keep")], []⟩
        { id := "p", name := "P", settingsConfig := .obj [] })
      .claudeSettings = some (.json (.obj [])) ∧
    fileAt
      (ProviderService.writeClaudeLive
        ⟨⟨[], []⟩, {}, [(.codexConfig, .text "keep")], []⟩
        { id := "p", name := "P", settingsConfig := .obj [] })
      .codexConfig =
      fileAt (⟨⟨[], []⟩, {}, [(.codexConfig, .text "keep")], []⟩ : SysState) .codexConfig := by
  have h := claim_C4_claude_live_overwrites
    ⟨⟨[], []⟩, {}, [(.codexConfig, .text "keep")], []⟩
    { id := "p", name := "P", settingsConfig := .obj [] }
  exact ⟨h.1, h.2 .codexConfig (by decide)⟩

/-- The file writes one `write_live_snapshot` call performs: one JSON write
for Claude and Gemini, one text write per present `config`/`auth` section
for Codex, and none for OpenCode (unimplemented in the source). -/
def liveWriteEvents (app : AppType) (p : Provider) : List (LivePath × FileContent) :=
  match app with
  | .claude => [(.claudeSettings, .json p.settingsConfig)]
  | .codex =>
      (match (p.settingsConfig.get "config").bind JsonVal.asStr with
       | some config => [(.codexConfig, .text config)]
       | none => []) ++
      (match (p.settingsConfig.get "auth").bind JsonVal.asStr with
       | some auth => [(.codexAuth, .text auth)]
       | none => [])
  | .gemini => [(.geminiSettings, .json p.settingsConfig)]
  | .opencode => []

theorem writeLiveSnapshot_log (s : SysState) (app : AppType) (p : Provider) :
    (ProviderService.writeLiveSnapshot s app p).log = s.log ++ liveWriteEvents app p := by
  cases app with
  | claude => simp [ProviderService.writeLiveSnapshot, ProviderService.writeClaudeLive,
      writeLive, liveWriteEvents]
  | codex =>
      cases hc : (p.settingsConfig.get "config").bind JsonVal.asStr <;>
        cases ha : (p.settingsConfig.get "auth").bind JsonVal.asStr <;>
          simp [ProviderService.writeLiveSnapshot, ProviderService.writeCodexLive,
            writeLive, liveWriteEvents, hc, ha]
  | gemini => simp [ProviderService.writeLiveSnapshot, ProviderService.writeGeminiLive,
      writeLive, liveWriteEvents]
  | opencode => simp [ProviderService.writeLiveSnapshot, ProviderService.writeOpencodeLive,
      liveWriteEvents]

theorem writeLiveSnapshot_db (s : SysState) (app : AppType) (p : Provider) :
    (ProviderService.writeLiveSnapshot s app p).db = s.db := by
  cases app with
  | claude => rfl
  | codex =>
      cases hc : (p.settingsConfig.get "config").bind JsonVal.asStr <;>
        cases ha : (p.settingsConfig.get "auth").bind JsonVal.asStr <;>
          simp [ProviderService.writeLiveSnapshot, ProviderService.writeCodexLive,
            writeLive, hc, ha]
  | gemini => rfl
  | opencode => rfl

theorem writeLiveSnapshot_overlay (s : SysState) (app : AppType) (p : Provider) :
    (ProviderService.writeLiveSnapshot s app p).overlay = s.overlay := by
  cases app with
  | claude => rfl
  | codex =>
      cases hc : (p.settingsConfig.get "config").bind JsonVal.asStr <;>
        cases ha : (p.settingsConfig.get "auth").bind JsonVal.asStr <;>
          simp [ProviderService.writeLiveSnapshot, ProviderService.writeCodexLive,
            writeLive, hc, ha]
  | gemini => rfl
  | opencode => rfl

theorem overlay_get_set (o : AppSettings) (app : AppType) (v : Option String)
    (h : app.isAdditiveMode = false) :
    (o.setCurrentProvider app v).getCurrentProvider app = v := by
  cases app <;> simp_all [AppSettings.setCurrentProvider, AppSettings.getCurrentProvider,
    AppType.isAdditiveMode]

/-- After `save_provider` on a store with no row of the application, the
store's current-provider column is still unset. -/
theorem getCurrent_save_of_empty (db : DbState) (app : AppType) (p : Provider)
    (hEmpty : ∀ r ∈ db.providers, r.app ≠ app) :
    Database.getCurrentProvider (Database.saveProvider db app p) app = none := by
  unfold Database.getCurrentProvider Database.saveProvider
  rw [Option.map_eq_none']
  rw [List.find?_eq_none]
  intro r hr
  rcases List.mem_append.mp hr with hl | hr1
  · have : r ∈ db.providers := List.mem_of_mem_filter hl
    simp [hEmpty r this]
  · rcases List.mem_singleton.mp hr1 with rfl
    simp

/-- After `set_current_provider` targeting the freshly saved row, the
current-provider column holds its id. -/
theorem getCurrent_setCurrent_of_fresh (db : DbState) (app : AppType) (p : Provider)
    (hEmpty : ∀ r ∈ db.providers, r.app ≠ app) :
    Database.getCurrentProvider
      (Database.setCurrentProvider (Database.saveProvider db app p) app p.id) app =
      some p.id := by
  unfold Database.getCurrentProvider
  rw [StoreInv.setCurrent_providers_eq]
  unfold Database.saveProvider
  rw [List.map_append]
  rw [ListFacts.find?_append_of_none]
  · simp
  · intro r hr
    rcases List.mem_map.mp hr with ⟨r0, hr0, rfl⟩
    have hne : r0.app ≠ app := hEmpty r0 (List.mem_of_mem_filter hr0)
    simp [hne]

/-- C7 (amended): on an exclusive app, validating and adding a provider to a
store with no row of that app makes it current in both the store column and
the overlay, and performs exactly the live-sync writes of one
`write_live_snapshot` call — exactly one file write for Claude and Gemini
(Codex writes one file per present `config`/`auth` section, see the
counterexample); while a current provider with a different id is set,
a further add leaves current, overlay, live files and write log untouched. -/
theorem claim_C7_first_add_becomes_current (s : SysState) (app : AppType) (p : Provider)
    (hExcl : app.isAdditiveMode = false)
    (hValid : ProviderService.validateProviderSettings app p = .ok ()) :
    ((∀ r ∈ s.db.providers, r.app ≠ app) →
      ∃ s' : SysState, ProviderService.add s app p = (.ok true, s') ∧
        Database.getCurrentProvider s'.db app = some p.id ∧
        s'.overlay.getCurrentProvider app = some p.id ∧
        s'.log = s.log ++ liveWriteEvents app p ∧
        ((app = .claude ∨ app = .gemini) → (liveWriteEvents app p).length = 1)) ∧
    (∀ c : String, Database.getCurrentProvider s.db app = some c → c ≠ p.id →
      ProviderService.add s app p = (.ok true, { s with db := Database.saveProvider s.db app p }) ∧
      Database.getCurrentProvider (Database.saveProvider s.db app p) app = some c) := by
  constructor
  · intro hEmpty
    have h1 := getCurrent_save_of_empty s.db app p hEmpty
    refine ⟨ProviderService.writeLiveSnapshot
        (setOverlayCurrent
          { db := Database.setCurrentProvider (Database.saveProvider s.db app p) app p.id,
            overlay := s.overlay, files := s.files, log := s.log } app (some p.id)) app p,
      ?_, ?_, ?_, ?_, ?_⟩
    · unfold ProviderService.add
      rw [hValid]
      dsimp only
      rw [if_neg (by simp [hExcl])]
      rw [h1]
    · rw [writeLiveSnapshot_db]
      show Database.getCurrentProvider
        (Database.setCurrentProvider (Database.saveProvider s.db app p) app p.id) app =
        some p.id
      exact getCurrent_setCurrent_of_fresh s.db app p hEmpty
    · rw [writeLiveSnapshot_overlay]
      show (s.overlay.setCurrentProvider app (some p.id)).getCurrentProvider app = some p.id
      exact overlay_get_set s.overlay app (some p.id) hExcl
    · rw [writeLiveSnapshot_log]
      rfl
    · rintro (rfl | rfl) <;> rfl
  · intro c hc hne
    have hr0 := hc
    unfold Database.getCurrentProvider at hr0
    rcases Option.map_eq_some'.mp hr0 with ⟨r0, hfind, hid⟩
    have hafter : Database.getCurrentProvider (Database.saveProvider s.db app p) app = some c := by
      unfold Database.getCurrentProvider Database.saveProvider
      rw [ListFacts.find?_append_of_found
        (ListFacts.find?_filter_of_found hfind (by simp [hid, hne]))]
      simp [hid]
    constructor
    · unfold ProviderService.add
      rw [hValid]
      dsimp only
      rw [if_neg (by simp [hExcl])]
      rw [hafter]
    · exact hafter

/-- Witness for C7 at an empty Claude store. -/
theorem claim_C7_first_add_becomes_current_witness :
    (AppType.isAdditiveMode .claude = false) ∧
    (ProviderService.validateProviderSettings .claude
      { id := "p", name := "P",
        settingsConfig := .obj [("env", .obj [("ANTHROPIC_AUTH_TOKEN", .str "t")])] } = .ok ()) ∧
    ∃ s' : SysState,
      ProviderService.add ⟨⟨[], []⟩, {}, [], []⟩ .claude
        { id := "p", name := "P",
          settingsConfig := .obj [("env", .obj [("ANTHROPIC_AUTH_TOKEN", .str "t")])] } =
        (.ok true, s') ∧
      Database.getCurrentProvider s'.db .claude = some "p" ∧
      s'.overlay.getCurrentProvider .claude = some "p" ∧
      s'.log = [] ++ liveWriteEvents .claude
        { id := "p", name := "P",
          settingsConfig := .obj [("env", .obj [("ANTHROPIC_AUTH_TOKEN", .str "t")])] } ∧
      ((AppType.claude = .claude ∨ AppType.claude = .gemini) →
        (liveWriteEvents .claude
          { id := "p", name := "P",
            settingsConfig := .obj [("env", .obj [("ANTHROPIC_AUTH_TOKEN", .str "t")])] }).length = 1) := by
  refine ⟨by decide, by rfl, ?_⟩
  exact ((claim_C7_first_add_becomes_current ⟨⟨[], []⟩, {}, [], []⟩ .claude
    { id := "p", name := "P",
      settingsConfig := .obj [("env", .obj [("ANTHROPIC_AUTH_TOKEN", .str "t")])] }
    (by decide) (by rfl)).1 (by simp))

/-- C7 counterexample: a valid Codex provider carrying both a `config` and an
`auth` section, added first to an empty store, triggers two live-sync file
writes, not exactly one. -/
theorem claim_C7_counterexample :
    (ProviderService.add ⟨⟨[], []⟩, {}, [], []⟩ .codex
      { id := "p", name := "P",
        settingsConfig := .obj [("config", .str ""), ("auth", .str "token")] }).1 =
      .ok true ∧
    (ProviderService.add ⟨⟨[], []⟩, {}, [], []⟩ .codex
      { id := "p", name := "P",
        settingsConfig := .obj [("config", .str ""), ("auth", .str "token")] }).2.log.length = 2 := by
  constructor <;> rfl

/-- C10: `ProviderService::find` resolves with the fixed three-tier
precedence — the entry whose id is exactly the query; else the first entry
(in store iteration order) whose name matches case-insensitively; else the
first entry whose lowercased name starts with the lowercased query; and
`none` exactly when no tier matches. -/
theorem claim_C10_find_three_tier (s : SysState) (app : AppType) (q : String) :
    (∀ i : Fin (Database.getAllProviders s.db app).length,
      ((Database.getAllProviders s.db app).get i).1 = q →
      (∀ j : Fin (Database.getAllProviders s.db app).length, (j : Nat) < (i : Nat) →
        ((Database.getAllProviders s.db app).get j).1 ≠ q) →
      ProviderService.find s app q = some ((Database.getAllProviders s.db app).get i).2) ∧
    ((∀ kv ∈ Database.getAllProviders s.db app, kv.1 ≠ q) →
      (∀ i : Fin (Database.getAllProviders s.db app).length,
        lowerStr ((Database.getAllProviders s.db app).get i).2.name = lowerStr q →
        (∀ j : Fin (Database.getAllProviders s.db app).length, (j : Nat) < (i : Nat) →
          lowerStr ((Database.getAllProviders s.db app).get j).2.name ≠ lowerStr q) →
        ProviderService.find s app q = some ((Database.getAllProviders s.db app).get i).2) ∧
      ((∀ kv ∈ Database.getAllProviders s.db app, lowerStr kv.2.name ≠ lowerStr q) →
        (∀ i : Fin (Database.getAllProviders s.db app).length,
          (lowerStr ((Database.getAllProviders s.db app).get i).2.name).startsWith (lowerStr q) = true →
          (∀ j : Fin (Database.getAllProviders s.db app).length, (j : Nat) < (i : Nat) →
            (lowerStr ((Database.getAllProviders s.db app).get j).2.name).startsWith (lowerStr q) ≠ true) →
          ProviderService.find s app q = some ((Database.getAllProviders s.db app).get i).2) ∧
        ((∀ kv ∈ Database.getAllProviders s.db app,
            (lowerStr kv.2.name).startsWith (lowerStr q) ≠ true) →
          ProviderService.find s app q = none))) := by
  refine ⟨?_, ?_⟩
  · intro i hi hj
    have hl := ListFacts.lookup_eq_of_first i hi hj
    unfold ProviderService.find
    dsimp only
    rw [hl]
  · intro hNoId
    have hlnone : (Database.getAllProviders s.db app).lookup q = none :=
      ListFacts.lookup_eq_none_iff.mpr hNoId
    refine ⟨?_, ?_⟩
    · intro i hi hj
      have hf : (Database.getAllProviders s.db app).find?
          (fun kv => lowerStr kv.2.name == lowerStr q) =
          some ((Database.getAllProviders s.db app).get i) := by
        refine ListFacts.find?_eq_of_first i ?_ ?_
        · simpa [beq_iff_eq] using hi
        · intro j hjlt
          have := hj j hjlt
          simpa [beq_iff_eq] using this
      unfold ProviderService.find
      dsimp only
      rw [hlnone]
      dsimp only
      rw [hf]
    · intro hNoName
      have hfnone : (Database.getAllProviders s.db app).find?
          (fun kv => lowerStr kv.2.name == lowerStr q) = none := by
        rw [List.find?_eq_none]
        intro kv hkv
        simpa [beq_iff_eq] using hNoName kv hkv
      refine ⟨?_, ?_⟩
      · intro i hi hj
        have hf : (Database.getAllProviders s.db app).find?
            (fun kv => (lowerStr kv.2.name).startsWith (lowerStr q)) =
            some ((Database.getAllProviders s.db app).get i) := by
          refine ListFacts.find?_eq_of_first i hi ?_
          intro j hjlt
          exact hj j hjlt
        unfold ProviderService.find
        dsimp only
        rw [hlnone]
        dsimp only
        rw [hfnone]
        dsimp only
        rw [hf]
        rfl
      · intro hNoStart
        have hfnone2 : (Database.getAllProviders s.db app).find?
            (fun kv => (lowerStr kv.2.name).startsWith (lowerStr q)) = none := by
          rw [List.find?_eq_none]
          exact hNoStart
        unfold ProviderService.find
        dsimp only
        rw [hlnone]
        dsimp only
        rw [hfnone]
        dsimp only
        rw [hfnone2]
        rfl

/-- Witness for C10: the id tier wins on a one-entry store. -/
theorem claim_C10_find_three_tier_witness :
    ((Database.getAllProviders
        (⟨[⟨.claude, { id := "a", name := "Alpha", settingsConfig := .null }, false⟩], []⟩ : DbState)
        .claude).get ⟨0, by decide⟩).1 = "a" ∧
    ProviderService.find
      ⟨⟨[⟨.claude, { id := "a", name := "Alpha", settingsConfig := .null }, false⟩], []⟩,
        {}, [], []⟩ .claude "a" =
      some ((Database.getAllProviders
        (⟨[⟨.claude, { id := "a", name := "Alpha", settingsConfig := .null }, false⟩], []⟩ : DbState)
        .claude).get ⟨0, by decide⟩).2 := by
  refine ⟨rfl, ?_⟩
  exact (claim_C10_find_three_tier
    ⟨⟨[⟨.claude, { id := "a", name := "Alpha", settingsConfig := .null }, false⟩], []⟩,
      {}, [], []⟩ .claude "a").1 ⟨0, by decide⟩ rfl
    (fun j hj => absurd hj (Nat.not_lt_zero _))

/-- One membership characterization of the prompt map built by
`get_all_prompts`. -/
theorem mem_getAllPrompts {db : DbState} {app : AppType} {kv : String × Prompt} :
    kv ∈ Database.getAllPrompts db app ↔
      ∃ r ∈ db.prompts, r.app = app ∧ kv = (r.prompt.id, r.prompt) := by
  simp only [Database.getAllPrompts, List.mem_map]
  constructor
  · rintro ⟨r, hr, rfl⟩
    rw [List.mem_insertionSort] at hr
    rcases List.mem_filter.mp hr with ⟨hmem, hcond⟩
    exact ⟨r, hmem, by simpa using hcond, rfl⟩
  · rintro ⟨r, hmem, happ, rfl⟩
    refine ⟨r, ?_, rfl⟩
    rw [List.mem_insertionSort]
    exact List.mem_filter.mpr ⟨hmem, by simpa⟩

/-- Every row of the application contributes its id to the snapshot id list
the enable loop iterates over. -/
theorem appRow_id_mem_ids {db : DbState} {app : AppType} {r : PromptRow}
    (hr : r ∈ db.prompts) (happ : r.app = app) :
    r.prompt.id ∈ (Database.getAllPrompts db app).map (·.1) :=
  List.mem_map.mpr ⟨(r.prompt.id, r.prompt), mem_getAllPrompts.mpr ⟨r, hr, happ, rfl⟩, rfl⟩

namespace PromptInv

/-- The row change of `update_prompt_enabled .. false now`. -/
def disableRow (now : Int) (r : PromptRow) : PromptRow :=
  { r with prompt := { r.prompt with enabled := false, updatedAt := some now } }

/-- Pointwise effect of the guarded disable loop of `PromptService::enable`. -/
def disableIn (ids : List String) (keep : String) (app : AppType) (now : Int)
    (r : PromptRow) : PromptRow :=
  if r.app = app ∧ r.prompt.id ∈ ids ∧ r.prompt.id ≠ keep then disableRow now r else r

/-- Pointwise effect of the unguarded disable loop of
`PromptService::import_from_app`. -/
def disableAllIn (ids : List String) (app : AppType) (now : Int)
    (r : PromptRow) : PromptRow :=
  if r.app = app ∧ r.prompt.id ∈ ids then disableRow now r else r

theorem updatePromptEnabled_prompts (db : DbState) (app : AppType) (pid : String)
    (b : Bool) (now : Int) :
    (Database.updatePromptEnabled db app pid b now).prompts =
      db.prompts.map (fun r =>
        if r.prompt.id = pid ∧ r.app = app then
          { r with prompt := { r.prompt with enabled := b, updatedAt := some now } }
        else r) := rfl

theorem foldl_disable_eq_map (ids : List String) (db : DbState) (app : AppType)
    (keep : String) (now : Int) :
    (ids.foldl
      (fun db pid =>
        if pid ≠ keep then Database.updatePromptEnabled db app pid false now else db)
      db).prompts = db.prompts.map (disableIn ids keep app now) := by
  induction ids generalizing db with
  | nil =>
    simp only [List.foldl_nil]
    symm
    refine (List.map_congr_left fun r _ => ?_).trans (List.map_id _)
    simp [disableIn]
  | cons pid rest ih =>
    rw [List.foldl_cons]
    by_cases hpid : pid ≠ keep
    · rw [if_pos hpid, ih, updatePromptEnabled_prompts, List.map_map]
      refine List.map_congr_left ?_
      intro r _
      simp only [Function.comp]
      by_cases happ : r.app = app <;> by_cases hid : r.prompt.id = pid <;>
        by_cases hmem : r.prompt.id ∈ rest <;> by_cases hkeep : r.prompt.id = keep <;>
          simp_all [disableIn, disableRow, List.mem_cons]
    · rw [if_neg hpid, ih]
      refine List.map_congr_left ?_
      intro r _
      have hk : pid = keep := not_not.mp hpid
      by_cases happ : r.app = app <;> by_cases hid : r.prompt.id = pid <;>
        by_cases hmem : r.prompt.id ∈ rest <;>
          simp_all [disableIn, disableRow, List.mem_cons]

theorem foldl_disableAll_eq_map (ids : List String) (db : DbState) (app : AppType)
    (now : Int) :
    (ids.foldl (fun db pid => Database.updatePromptEnabled db app pid false now)
      db).prompts = db.prompts.map (disableAllIn ids app now) := by
  induction ids generalizing db with
  | nil =>
    simp only [List.foldl_nil]
    symm
    refine (List.map_congr_left fun r _ => ?_).trans (List.map_id _)
    simp [disableAllIn]
  | cons pid rest ih =>
    rw [List.foldl_cons, ih, updatePromptEnabled_prompts, List.map_map]
    refine List.map_congr_left ?_
    intro r _
    simp only [Function.comp]
    by_cases happ : r.app = app <;> by_cases hid : r.prompt.id = pid <;>
      by_cases hmem : r.prompt.id ∈ rest <;>
        simp_all [disableAllIn, disableRow, List.mem_cons]

theorem syncToApp_db (s : SysState) (app : AppType) :
    (PromptService.syncToApp s app).db = s.db := by
  unfold PromptService.syncToApp
  cases Database.getEnabledPrompt s.db app with
  | none =>
      dsimp only
      split <;> rfl
  | some p => rfl

/-- The row change of `update_prompt_enabled .. true now`, keyed. -/
def enableRowIf (keep : String) (app : AppType) (now : Int) (r : PromptRow) : PromptRow :=
  if r.prompt.id = keep ∧ r.app = app then
    { r with prompt := { r.prompt with enabled := true, updatedAt := some now } }
  else r

theorem disableIn_app (ids : List String) (keep : String) (app : AppType) (now : Int)
    (r : PromptRow) : (disableIn ids keep app now r).app = r.app := by
  unfold disableIn disableRow
  split <;> rfl

theorem enableRowIf_app (keep : String) (app : AppType) (now : Int) (r : PromptRow) :
    (enableRowIf keep app now r).app = r.app := by
  unfold enableRowIf
  split <;> rfl

/-- Row-level form of the whole `PromptService::enable` database effect. -/
theorem enable_prompts_eq (s : SysState) (app : AppType) (id : String) (now : Int)
    (pr : Prompt) (hget : Database.getPrompt s.db app id = some pr) :
    (PromptService.enable s app id now).2.db.prompts =
      (s.db.prompts.map
        (disableIn ((Database.getAllPrompts s.db app).map (·.1)) id app now)).map
        (enableRowIf id app now) := by
  unfold PromptService.enable
  rw [if_neg (by simp [hget])]
  dsimp only
  rw [syncToApp_db]
  rw [updatePromptEnabled_prompts, foldl_disable_eq_map]
  rfl

end PromptInv

/-- C2 (amended): `enable` establishes the per-application exclusivity
invariant outright — after `enable(app, B)` a stored row of the application
is enabled exactly when its id is B, hence (with primary-key uniqueness) at
most one enabled prompt; and the invariant "at most one enabled prompt per
application" is preserved by `disable`, `remove`, `import_from_app`, and by
`add`/`update` of a prompt whose `enabled` flag is `false`.  (It is NOT
preserved by `add`/`update` of a prompt carrying `enabled = true`, which the
counterexample shows — those persist the flag verbatim without disabling
the others.) -/
theorem claim_C2_prompt_exclusive_enable (s : SysState) (app : AppType) (id : String)
    (p : Prompt) (now : Int) :
    ((∃ pr, Database.getPrompt s.db app id = some pr) →
      (∀ r ∈ (PromptService.enable s app id now).2.db.prompts,
        r.app = app → (r.prompt.enabled = true ↔ r.prompt.id = id)) ∧
      (promptsKeyUnique s.db.prompts →
        enabledPromptCount (PromptService.enable s app id now).2.db.prompts app ≤ 1)) ∧
    (enabledPromptCount s.db.prompts app ≤ 1 →
      enabledPromptCount (PromptService.disable s app id now).2.db.prompts app ≤ 1 ∧
      enabledPromptCount (PromptService.remove s app id).2.db.prompts app ≤ 1 ∧
      (p.enabled = false →
        enabledPromptCount (PromptService.add s app p).2.db.prompts app ≤ 1 ∧
        enabledPromptCount (PromptService.update s app p).2.db.prompts app ≤ 1) ∧
      enabledPromptCount (PromptService.importFromApp s app now).2.db.prompts app ≤ 1) := by
  constructor
  · rintro ⟨pr, hget⟩
    constructor
    · intro r' hr' happ'
      rw [PromptInv.enable_prompts_eq s app id now pr hget] at hr'
      rcases List.mem_map.mp hr' with ⟨r1, hr1, rfl⟩
      rcases List.mem_map.mp hr1 with ⟨r0, hr0, rfl⟩
      have happ0 : r0.app = app := by
        rw [PromptInv.enableRowIf_app, PromptInv.disableIn_app] at happ'
        exact happ'
      by_cases hid0 : r0.prompt.id = id
      · have hdis : PromptInv.disableIn ((Database.getAllPrompts s.db app).map (·.1))
            id app now r0 = r0 := by
          unfold PromptInv.disableIn
          rw [if_neg]
          rintro ⟨-, -, hne⟩
          exact hne hid0
        rw [hdis]
        unfold PromptInv.enableRowIf
        rw [if_pos ⟨hid0, happ0⟩]
        simp [hid0]
      · have hmem0 : r0.prompt.id ∈ (Database.getAllPrompts s.db app).map (·.1) :=
          appRow_id_mem_ids hr0 happ0
        have hdis : PromptInv.disableIn ((Database.getAllPrompts s.db app).map (·.1))
            id app now r0 = PromptInv.disableRow now r0 := by
          unfold PromptInv.disableIn
          rw [if_pos ⟨happ0, hmem0, hid0⟩]
        rw [hdis]
        unfold PromptInv.enableRowIf PromptInv.disableRow
        rw [if_neg (by rintro ⟨h1, -⟩; exact hid0 (by simpa using h1))]
        simp [hid0]
    · intro hUnique
      rw [PromptInv.enable_prompts_eq s app id now pr hget]
      unfold enabledPromptCount
      rw [← List.countP_eq_length_filter, List.countP_map, List.countP_map]
      have hpt : ∀ r0 ∈ s.db.prompts,
          (((fun r : PromptRow => decide (r.app = app) && r.prompt.enabled) ∘
              PromptInv.enableRowIf id app now) ∘
            PromptInv.disableIn ((Database.getAllPrompts s.db app).map (·.1)) id app now) r0 =
              true ↔
            (decide (r0.app = app) && decide (r0.prompt.id = id)) = true := by
        intro r0 hr0
        by_cases happ0 : r0.app = app
        · by_cases hid0 : r0.prompt.id = id
          · have hdis : PromptInv.disableIn ((Database.getAllPrompts s.db app).map (·.1))
                id app now r0 = r0 := by
              unfold PromptInv.disableIn
              rw [if_neg]
              rintro ⟨-, -, hne⟩
              exact hne hid0
            simp [Function.comp, hdis, PromptInv.enableRowIf, hid0, happ0]
          · have hmem0 : r0.prompt.id ∈ (Database.getAllPrompts s.db app).map (·.1) :=
              appRow_id_mem_ids hr0 happ0
            have hdis : PromptInv.disableIn ((Database.getAllPrompts s.db app).map (·.1))
                id app now r0 = PromptInv.disableRow now r0 := by
              unfold PromptInv.disableIn
              rw [if_pos ⟨happ0, hmem0, hid0⟩]
            simp [Function.comp, hdis, PromptInv.enableRowIf, PromptInv.disableRow, hid0, happ0]
        · have hdis : PromptInv.disableIn ((Database.getAllPrompts s.db app).map (·.1))
              id app now r0 = r0 := by
            unfold PromptInv.disableIn
            rw [if_neg]
            rintro ⟨h1, -⟩
            exact happ0 h1
          simp [Function.comp, hdis, PromptInv.enableRowIf, happ0]
      rw [List.countP_congr hpt, List.countP_eq_length_filter]
      refine StoreInv.filter_length_le_one_of_pairwise hUnique ?_
      intro a b ha hb
      simp only [Bool.and_eq_true, decide_eq_true_eq] at ha hb
      intro hR
      exact hR ⟨ha.2.trans hb.2.symm, ha.1.trans hb.1.symm⟩
  · intro hCount
    have hsub : ∀ q : PromptRow → Bool,
        enabledPromptCount (s.db.prompts.filter q) app ≤ 1 := by
      intro q
      refine le_trans ?_ hCount
      exact List.Sublist.length_le (List.Sublist.filter _ (List.filter_sublist _))
    refine ⟨?_, ?_, ?_, ?_⟩
    · cases hget : Database.getPrompt s.db app id with
      | none =>
          unfold PromptService.disable
          rw [if_pos (by simp [hget])]
          exact hCount
      | some pr =>
          unfold PromptService.disable
          rw [if_neg (by simp [hget])]
          dsimp only
          rw [PromptInv.syncToApp_db]
          show enabledPromptCount
            (Database.updatePromptEnabled s.db app id false now).prompts app ≤ 1
          rw [PromptInv.updatePromptEnabled_prompts]
          unfold enabledPromptCount at hCount ⊢
          rw [← List.countP_eq_length_filter] at hCount ⊢
          rw [List.countP_map]
          refine le_trans (List.countP_mono_left ?_) hCount
          intro r _ hrp
          by_cases hc : r.prompt.id = id ∧ r.app = app
          · simp [Function.comp, hc] at hrp
          · simpa [Function.comp, hc] using hrp
    · cases hget : Database.getPrompt s.db app id with
      | none =>
          unfold PromptService.remove
          rw [hget]
          exact hCount
      | some pr =>
          unfold PromptService.remove
          rw [hget]
          dsimp only
          by_cases hen : pr.enabled = true
          · rw [if_pos hen]
            dsimp only
            rw [PromptInv.syncToApp_db]
            exact hsub _
          · rw [if_neg hen]
            exact hsub _
    · intro hpe
      constructor
      · by_cases hdup : (Database.getPrompt s.db app p.id).isSome = true
        · unfold PromptService.add
          rw [if_pos hdup]
          exact hCount
        · unfold PromptService.add
          rw [if_neg hdup]
          dsimp only
          rw [if_neg (by simp [hpe])]
          show enabledPromptCount (Database.savePrompt s.db app p).prompts app ≤ 1
          unfold Database.savePrompt enabledPromptCount
          rw [List.filter_append, List.length_append]
          have h2 : (List.filter (fun r => decide (r.app = app) && r.prompt.enabled)
              [({ app := app, prompt := p } : PromptRow)]).length = 0 := by
            simp [hpe]
          rw [h2, Nat.add_zero]
          exact hsub _
      · by_cases hmiss : (Database.getPrompt s.db app p.id).isNone = true
        · unfold PromptService.update
          rw [if_pos hmiss]
          exact hCount
        · unfold PromptService.update
          rw [if_neg hmiss]
          dsimp only
          rw [PromptInv.syncToApp_db]
          show enabledPromptCount (Database.savePrompt s.db app p).prompts app ≤ 1
          unfold Database.savePrompt enabledPromptCount
          rw [List.filter_append, List.length_append]
          have h2 : (List.filter (fun r => decide (r.app = app) && r.prompt.enabled)
              [({ app := app, prompt := p } : PromptRow)]).length = 0 := by
            simp [hpe]
          rw [h2, Nat.add_zero]
          exact hsub _
    · cases hfile : fileAt s (.promptFile app) with
      | none =>
          unfold PromptService.importFromApp
          rw [hfile]
          exact hCount
      | some c =>
          unfold PromptService.importFromApp
          rw [hfile]
          dsimp only
          by_cases htrim : c.asText.trim.isEmpty = true
          · rw [if_pos htrim]
            exact hCount
          · rw [if_neg htrim]
            dsimp only
            unfold Database.savePrompt enabledPromptCount
            rw [List.filter_append, List.length_append]
            have hall : ∀ r ∈ (List.foldl
                (fun db pid => Database.updatePromptEnabled db app pid false now) s.db
                ((Database.getAllPrompts s.db app).map (·.1))).prompts,
                ¬((fun r => decide (r.app = app) && r.prompt.enabled) r = true) := by
              rw [PromptInv.foldl_disableAll_eq_map]
              intro r hr
              rcases List.mem_map.mp hr with ⟨r0, hr0, rfl⟩
              by_cases happ0 : r0.app = app
              · have hmem0 : r0.prompt.id ∈ (Database.getAllPrompts s.db app).map (·.1) :=
                  appRow_id_mem_ids hr0 happ0
                simp [PromptInv.disableAllIn, PromptInv.disableRow, happ0, hmem0]
              · simp [PromptInv.disableAllIn, happ0]
            have h1 : (List.filter (fun r => decide (r.app = app) && r.prompt.enabled)
                ((List.foldl (fun db pid => Database.updatePromptEnabled db app pid false now)
                  s.db ((Database.getAllPrompts s.db app).map (·.1))).prompts.filter
                    (fun r => !(decide (r.prompt.id = ("imported-" ++ toString now)) &&
                      decide (r.app = app))))).length = 0 := by
              rw [List.length_eq_zero, List.filter_eq_nil_iff]
              intro r hr
              exact hall r (List.mem_of_mem_filter hr)
            rw [h1, Nat.zero_add]
            simp

/-- C2 counterexample: `PromptService::add` persists the given `enabled`
flag without touching the other prompts, so adding two prompts that both
carry `enabled = true` leaves two enabled prompts stored for the same
application — a reachable state violating the claimed invariant. -/
theorem claim_C2_counterexample :
    enabledPromptCount
      (PromptService.add
        (PromptService.add (⟨⟨[], []⟩, {}, [], []⟩ : SysState) .claude
          { id := "a", name := "A", content := "x", enabled := true }).2
        .claude
        { id := "b", name := "B", content := "y", enabled := true }).2.db.prompts
      .claude = 2 := by
  rfl

/-- Witness for C2 (amended): enabling B while A is the enabled prompt
leaves at most one enabled prompt. -/
theorem claim_C2_prompt_exclusive_enable_witness :
    (∃ pr, Database.getPrompt
      (⟨[], [⟨.claude, { id := "a", name := "A", content := "x", enabled := true }⟩,
            ⟨.claude, { id := "b", name := "B", content := "y" }⟩]⟩ : DbState)
      .claude "b" = some pr) ∧
    promptsKeyUnique
      [⟨.claude, { id := "a", name := "A", content := "x", enabled := true }⟩,
       ⟨.claude, { id := "b", name := "B", content := "y" }⟩] ∧
    enabledPromptCount
      (PromptService.enable
        ⟨⟨[], [⟨.claude, { id := "a", name := "A", content := "x", enabled := true }⟩,
               ⟨.claude, { id := "b", name := "B", content := "y" }⟩]⟩,
          {}, [], []⟩ .claude "b" 5).2.db.prompts .claude ≤ 1 := by
  have hU : promptsKeyUnique
      [⟨.claude, { id := "a", name := "A", content := "x", enabled := true }⟩,
       ⟨.claude, { id := "b", name := "B", content := "y" }⟩] := by
    simp [promptsKeyUnique]
  refine ⟨⟨{ id := "b", name := "B", content := "y" }, rfl⟩, hU, ?_⟩
  exact ((claim_C2_prompt_exclusive_enable
    ⟨⟨[], [⟨.claude, { id := "a", name := "A", content := "x", enabled := true }⟩,
           ⟨.claude, { id := "b", name := "B", content := "y" }⟩]⟩, {}, [], []⟩
    .claude "b" { id := "z", name := "Z", content := "" } 5).1
    ⟨{ id := "b", name := "B", content := "y" }, rfl⟩).2 hU

namespace AtomicFile

theorem lookupKV_setKV_self {β : Type} (l : List (String × β)) (k : String) (v : β) :
    lookupKV (setKV l k v) k = some v := by
  simp [lookupKV, setKV]

theorem lookupKV_setKV_other {β : Type} (l : List (String × β)) (k : String) (v : β)
    (q : String) (h : q ≠ k) : lookupKV (setKV l k v) q = lookupKV l q := by
  simp only [lookupKV, setKV]
  rw [List.find?_cons_of_neg _ (by simp [beq_iff_eq, Ne.symm h])]
  rw [ListFacts.find?_filter_of_imp]
  intro kv hkv
  have hk : kv.1 = q := by simpa using hkv
  simp [hk, h]

theorem lookupKV_removeKV_other {β : Type} (l : List (String × β)) (k : String)
    (q : String) (h : q ≠ k) : lookupKV (removeKV l k) q = lookupKV l q := by
  simp only [lookupKV, removeKV]
  rw [ListFacts.find?_filter_of_imp]
  intro kv hkv
  have : kv.1 = q := by simpa using hkv
  simp [this, h]

/-- The permission-copy stage never touches file contents. -/
theorem contents_permStage (fs2 : RawFs) (mf spf : Bool) (o : Option Nat)
    (tmpfull : String) :
    (if mf then fs2
     else
       match o with
       | some mode => if spf then fs2 else { fs2 with perms := setKV fs2.perms tmpfull mode }
       | none => fs2).contents = fs2.contents := by
  cases mf with
  | true => rfl
  | false =>
      cases o with
      | none => rfl
      | some mode => cases spf with
        | true => rfl
        | false => rfl

/-- The temp file's full path differs from the target's. -/
theorem tmpFull_ne_full (path : RawPath) (ts : Nat) :
    (⟨path.dir, path.fileName ++ ".tmp." ++ toString ts⟩ : RawPath).full ≠ path.full := by
  intro h
  have hlen := congrArg String.length h
  simp only [RawPath.full, String.length_append] at hlen
  have h5 : ".tmp.".length = 5 := rfl
  omega

end AtomicFile

/-- C9 (amended): `atomic_write` stages everything through the sibling temp
file `<name>.tmp.<ts>`; on success the target holds exactly the new bytes;
when the directory creation, temp-file creation, write, flush or rename
fails, the call returns an I/O error naming the failing path and the target
file's content is byte-for-byte what it was before the call; no path other
than the target and its temp sibling is ever touched.  (A failure of the
metadata read or of the permission copy is silently swallowed — the write
still succeeds, see the counterexample.) -/
theorem claim_C9_atomic_write_atomicity (fs : AtomicFile.RawFs)
    (f : AtomicFile.FailSpec) (path : AtomicFile.RawPath) (data : List Nat)
    (ts dm : Nat) :
    ((AtomicFile.atomicWrite fs f path data ts dm).1 = .ok () →
      AtomicFile.lookupKV (AtomicFile.atomicWrite fs f path data ts dm).2.contents
        path.full = some data) ∧
    (∀ e, (AtomicFile.atomicWrite fs f path data ts dm).1 = .error e →
      AtomicFile.lookupKV (AtomicFile.atomicWrite fs f path data ts dm).2.contents
          path.full = AtomicFile.lookupKV fs.contents path.full ∧
      (e = .Io path.dir ∨
       e = .Io (AtomicFile.RawPath.full
          ⟨path.dir, path.fileName ++ ".tmp." ++ toString ts⟩) ∨
       e = .IoContext ("原子替换失败: " ++
          AtomicFile.RawPath.full ⟨path.dir, path.fileName ++ ".tmp." ++ toString ts⟩ ++
          " -> " ++ path.full))) ∧
    (∀ q, q ≠ path.full →
      q ≠ AtomicFile.RawPath.full ⟨path.dir, path.fileName ++ ".tmp." ++ toString ts⟩ →
      AtomicFile.lookupKV (AtomicFile.atomicWrite fs f path data ts dm).2.contents q =
        AtomicFile.lookupKV fs.contents q) := by
  have hne := AtomicFile.tmpFull_ne_full path ts
  unfold AtomicFile.atomicWrite
  by_cases hcd : f.createDirFails = true
  · rw [if_pos hcd]
    refine ⟨fun h => Except.noConfusion h, fun e he => ⟨rfl, ?_⟩, fun q _ _ => rfl⟩
    cases he
    exact Or.inl rfl
  · rw [if_neg hcd]
    dsimp only
    by_cases hct : f.createTmpFails = true
    · rw [if_pos hct]
      refine ⟨fun h => Except.noConfusion h, fun e he => ⟨rfl, ?_⟩, fun q _ _ => rfl⟩
      cases he
      exact Or.inr (Or.inl rfl)
    · rw [if_neg hct]
      by_cases hwf : f.writeFails = true
      · rw [if_pos hwf]
        refine ⟨fun h => Except.noConfusion h, fun e he => ⟨?_, ?_⟩, fun q hq hqt => ?_⟩
        · rw [AtomicFile.lookupKV_setKV_other _ _ _ _ (Ne.symm hne),
            AtomicFile.lookupKV_setKV_other _ _ _ _ (Ne.symm hne)]
        · cases he
          exact Or.inr (Or.inl rfl)
        · rw [AtomicFile.lookupKV_setKV_other _ _ _ _ hqt,
            AtomicFile.lookupKV_setKV_other _ _ _ _ hqt]
      · rw [if_neg hwf]
        by_cases hff : f.flushFails = true
        · rw [if_pos hff]
          refine ⟨fun h => Except.noConfusion h, fun e he => ⟨?_, ?_⟩, fun q hq hqt => ?_⟩
          · rw [AtomicFile.lookupKV_setKV_other _ _ _ _ (Ne.symm hne),
              AtomicFile.lookupKV_setKV_other _ _ _ _ (Ne.symm hne)]
          · cases he
            exact Or.inr (Or.inl rfl)
          · rw [AtomicFile.lookupKV_setKV_other _ _ _ _ hqt,
              AtomicFile.lookupKV_setKV_other _ _ _ _ hqt]
        · rw [if_neg hff]
          by_cases hrf : f.renameFails = true
          · rw [if_pos hrf]
            refine ⟨fun h => Except.noConfusion h, fun e he => ⟨?_, ?_⟩, fun q hq hqt => ?_⟩
            · rw [AtomicFile.contents_permStage]
              rw [AtomicFile.lookupKV_setKV_other _ _ _ _ (Ne.symm hne),
                AtomicFile.lookupKV_setKV_other _ _ _ _ (Ne.symm hne)]
            · cases he
              exact Or.inr (Or.inr rfl)
            · rw [AtomicFile.contents_permStage]
              rw [AtomicFile.lookupKV_setKV_other _ _ _ _ hqt,
                AtomicFile.lookupKV_setKV_other _ _ _ _ hqt]
          · rw [if_neg hrf]
            refine ⟨fun _ => ?_, fun e he => Except.noConfusion he, fun q hq hqt => ?_⟩
            · exact AtomicFile.lookupKV_setKV_self _ _ _
            · rw [AtomicFile.lookupKV_setKV_other _ _ _ _ hq,
                AtomicFile.lookupKV_removeKV_other _ _ _ hqt,
                AtomicFile.contents_permStage,
                AtomicFile.lookupKV_setKV_other _ _ _ _ hqt,
                AtomicFile.lookupKV_setKV_other _ _ _ _ hqt]

/-- Witness for C9 at a concrete store with a failing rename. -/
theorem claim_C9_atomic_write_atomicity_witness :
    ((AtomicFile.atomicWrite ⟨[("d/f", [1])], [("d/f", 420)]⟩ { renameFails := true }
        ⟨"d", "f"⟩ [2] 7 384).1 =
      .error (.IoContext ("原子替换失败: " ++
        AtomicFile.RawPath.full ⟨"d", "f" ++ ".tmp." ++ toString 7⟩ ++ " -> " ++
        AtomicFile.RawPath.full ⟨"d", "f"⟩))) ∧
    AtomicFile.lookupKV
      (AtomicFile.atomicWrite ⟨[("d/f", [1])], [("d/f", 420)]⟩ { renameFails := true }
        ⟨"d", "f"⟩ [2] 7 384).2.contents
      (AtomicFile.RawPath.full ⟨"d", "f"⟩) =
      AtomicFile.lookupKV ([("d/f", [1])] : List (String × List Nat))
        (AtomicFile.RawPath.full ⟨"d", "f"⟩) := by
  refine ⟨rfl, ?_⟩
  exact ((claim_C9_atomic_write_atomicity ⟨[("d/f", [1])], [("d/f", 420)]⟩
    { renameFails := true } ⟨"d", "f"⟩ [2] 7 384).2.1 _ rfl).1

/-- C9 counterexample: with only the permission-copy step failing on an
existing target, `atomic_write` succeeds anyway (the failure is swallowed by
the source's `let _ =`) and the target now holds the new bytes — a failing
step neither surfaced an I/O error nor left the target byte-identical, as
the claim requires of every step. -/
theorem claim_C9_counterexample :
    ({ setPermFails := true } : AtomicFile.FailSpec).setPermFails = true ∧
    (AtomicFile.atomicWrite ⟨[("d/f", [1])], [("d/f", 420)]⟩ { setPermFails := true }
        ⟨"d", "f"⟩ [2] 7 384).1 = .ok () ∧
    AtomicFile.lookupKV
      (AtomicFile.atomicWrite ⟨[("d/f", [1])], [("d/f", 420)]⟩ { setPermFails := true }
        ⟨"d", "f"⟩ [2] 7 384).2.contents "d/f" = some [2] ∧
    AtomicFile.lookupKV ([("d/f", [1])] : List (String × List Nat)) "d/f" = some [1] ∧
    ([2] : List Nat) ≠ [1] := by
  refine ⟨rfl, rfl, rfl, rfl, by decide⟩

end CcSwitch
